import Mathlib

/-!
Verification of the Alden personal-automation assistant.

This file gives a shallow embedding, in Lean 4, of the parts of the Alden
repository that the checked claims are about:

* `learning/patterns.py`        — the Preference Learner (`learn_preferences`)
* `utils/budget.py`             — the Budget Tracker (`estimate_cost`, `record`, `total_spend`)
* `email_service/feedback_handler.py` — the Feedback Loop (`update_feedback`)
* `alden_calendar/calendar.py`  — the Local Calendar Store (`update_event`, `delete_event`)
* `alden_main/main_agents/data_collector.py` — the GPS telemetry validator and store
* `planning/daily_planner.py`   — the Daily Planner (`plan_day`)
* `core/notifications.py`       — the Nudge Engine (`build_nudge_schedule`)

Modelling conventions:

* Python dictionaries become association lists over a JSON-like value type
  `JVal`; lookups use the first occurrence of a key, matching the unique-key
  invariant of Python dicts.
* `datetime` values are modelled as integer counts of seconds since the civil
  epoch 1970-01-01 00:00 (naive local time), using the standard
  days-from-civil conversion.  Durations in minutes become 60-times that many
  seconds.  `strftime("%H:%M")` and `isoformat` become explicit rendering
  functions.  Timezone-aware timestamps are outside the model (the planner
  would raise on mixed aware/naive comparisons anyway).
* Python floats are modelled by exact rationals `ℚ`; at every input the
  theorems below evaluate, the double-precision computation of the source is
  exact, so the two semantics agree there.
* Fallible Python code (raising exceptions) returns `Option`/`Except`.
* For the aliasing claim about `plan_day`, a second embedding
  (`HeapModel.plan_day`) makes the dict heap and the `dict(e)` shallow copies
  explicit, so that "the input is not mutated" is a real statement about
  heap cells rather than a triviality of pure functions.
-/

namespace Alden

/-! ## Generic string / number helpers shared by the embedded modules -/

/-- Numeric value of a nonempty all-digit character list (else `none`).
Models the digit-string acceptance of Python `int()` (after sign/space
handling, which callers do separately). -/
def digitsVal (cs : List Char) : Option Nat :=
  if cs ≠ [] ∧ cs.all Char.isDigit then
    some (cs.foldl (fun a c => a * 10 + (c.toNat - 48)) 0)
  else none

/-- Strip surrounding whitespace (structural stand-in for `str.strip()` /
the whitespace tolerance of `int()` and `float()`). -/
def trimChars (cs : List Char) : List Char :=
  ((cs.dropWhile Char.isWhitespace).reverse.dropWhile Char.isWhitespace).reverse

/-- Python `int(s)` on a string: strips surrounding whitespace, allows one
leading sign, then decimal digits.  (Digit-group underscores are not
modelled; none of the data in this repository uses them.) -/
def pyInt? (s : String) : Option Int :=
  match trimChars s.toList with
  | '-' :: rest => (digitsVal rest).map (fun n => -(n : Int))
  | '+' :: rest => (digitsVal rest).map (fun n => (n : Int))
  | cs => (digitsVal cs).map (fun n => (n : Int))

/-- ASCII lower-casing, modelling `str.lower()` on the ASCII titles this
repository handles. -/
def pyLower (s : String) : String :=
  String.mk (s.toList.map Char.toLower)

/-- `s.split(c)` for a one-character separator (Python `str.split(sep)`). -/
def splitOnCharAux (c : Char) : List Char → List Char → List String
  | [], acc => [String.mk acc.reverse]
  | x :: xs, acc =>
    if x = c then String.mk acc.reverse :: splitOnCharAux c xs []
    else splitOnCharAux c xs (x :: acc)

def splitOnChar (s : String) (c : Char) : List String :=
  splitOnCharAux c s.toList []

/-- Does `pat` occur at the head of `s`?  (List-of-char version.) -/
def startsList : List Char → List Char → Bool
  | [], _ => true
  | _ :: _, [] => false
  | p :: ps, c :: cs => p = c && startsList ps cs

/-- Python's `sub in s` substring test. -/
def containsSub (s sub : String) : Bool :=
  s.toList.tails.any (fun t => startsList sub.toList t)

/-- Python `str.split()` with no argument: split on runs of whitespace,
dropping empty pieces. -/
def splitWsAux : List Char → List Char → List String
  | [], acc => if acc = [] then [] else [String.mk acc.reverse]
  | c :: cs, acc =>
    if c.isWhitespace then
      if acc = [] then splitWsAux cs []
      else String.mk acc.reverse :: splitWsAux cs []
    else splitWsAux cs (c :: acc)

def pyWords (s : String) : List String :=
  splitWsAux s.toList []

/-- `%02d` formatting for the small non-negative numbers rendered by the
source (hours, minutes); negative or wide values print unpadded, as in
Python. -/
def fmt02d (n : Int) : String :=
  if 0 ≤ n ∧ n < 10 then "0" ++ toString n else toString n

/-- `%04d` formatting (ISO year). -/
def fmt04d (n : Int) : String :=
  if 0 ≤ n ∧ n < 10 then "000" ++ toString n
  else if 0 ≤ n ∧ n < 100 then "00" ++ toString n
  else if 0 ≤ n ∧ n < 1000 then "0" ++ toString n
  else toString n

/-! ## Civil-calendar arithmetic (the `datetime` model)

A naive `datetime` is an `Int`: seconds since 1970-01-01 00:00.  The
conversions below are the standard days-from-civil / civil-from-days
algorithms, matching the proleptic Gregorian calendar used by `datetime`. -/

/-- Day count of the civil date `(y, m, d)` relative to 1970-01-01. -/
def daysFromCivil (y m d : Int) : Int :=
  let y' := y - (if m ≤ 2 then 1 else 0)
  let era := Int.fdiv y' 400
  let yoe := y' - era * 400
  let mp := if m ≤ 2 then m + 9 else m - 3
  let doy := (153 * mp + 2) / 5 + d - 1
  let doe := yoe * 365 + yoe / 4 - yoe / 100 + doy
  era * 146097 + doe - 719468

/-- Civil date `(y, m, d)` of a day count relative to 1970-01-01. -/
def civilFromDays (z : Int) : Int × Int × Int :=
  let z' := z + 719468
  let era := Int.fdiv z' 146097
  let doe := z' - era * 146097
  let yoe := (doe - doe / 1460 + doe / 36524 - doe / 146096) / 365
  let y := yoe + era * 400
  let doy := doe - (365 * yoe + yoe / 4 - yoe / 100)
  let mp := (5 * doy + 2) / 153
  let d := doy - (153 * mp + 2) / 5 + 1
  let m := if mp < 10 then mp + 3 else mp - 9
  (y + (if m ≤ 2 then 1 else 0), m, d)

def isLeap (y : Nat) : Bool :=
  y % 4 = 0 && (y % 100 ≠ 0 || y % 400 = 0)

def daysInMonth (y m : Nat) : Nat :=
  if m = 2 then (if isLeap y then 29 else 28)
  else if m = 4 ∨ m = 6 ∨ m = 9 ∨ m = 11 then 30
  else 31

/-- `datetime.fromisoformat` on the naive formats this repository produces:
`YYYY-MM-DD`, optionally followed by `T` or a space and `HH:MM` or
`HH:MM:SS`.  Field ranges are validated as `datetime` does.  Fractional
seconds and timezone offsets are outside the model and parse as `none`. -/
def parseISO (s : String) : Option Int :=
  match s.toList with
  | y1 :: y2 :: y3 :: y4 :: '-' :: m1 :: m2 :: '-' :: d1 :: d2 :: rest => do
    let y ← digitsVal [y1, y2, y3, y4]
    let m ← digitsVal [m1, m2]
    let d ← digitsVal [d1, d2]
    if 1 ≤ m ∧ m ≤ 12 ∧ 1 ≤ d ∧ d ≤ daysInMonth y m then
      let base : Int := 86400 * daysFromCivil y m d
      match rest with
      | [] => some base
      | sep :: t1 :: t2 :: ':' :: t3 :: t4 :: rest2 =>
        if sep = 'T' ∨ sep = ' ' then do
          let hh ← digitsVal [t1, t2]
          let mm ← digitsVal [t3, t4]
          if hh ≤ 23 ∧ mm ≤ 59 then
            match rest2 with
            | [] => some (base + 3600 * hh + 60 * mm)
            | [':', s1, s2] => do
              let ss ← digitsVal [s1, s2]
              if ss ≤ 59 then some (base + 3600 * hh + 60 * mm + ss) else none
            | _ => none
          else none
        else none
      | _ => none
    else none
  | _ => none

/-- Midnight (00:00) of the day a timestamp falls on. -/
def dayBase (t : Int) : Int :=
  86400 * Int.fdiv t 86400

/-- The day a timestamp falls on (`datetime.date()`). -/
def dateOf (t : Int) : Int :=
  Int.fdiv t 86400

/-- `strftime("%H:%M")`. -/
def fmtHHMM (t : Int) : String :=
  let sod := Int.emod t 86400
  fmt02d (sod / 3600) ++ ":" ++ fmt02d ((sod % 3600) / 60)

/-- `isoformat(timespec="minutes")`: `YYYY-MM-DDTHH:MM`. -/
def isoMinutes (t : Int) : String :=
  let ymd := civilFromDays (dateOf t)
  fmt04d ymd.1 ++ "-" ++ fmt02d ymd.2.1 ++ "-" ++ fmt02d ymd.2.2 ++ "T" ++ fmtHHMM t

/-! ## JSON-like values and dictionaries -/

/-- JSON-ish runtime values stored in the repository's dict-shaped data. -/
inductive JVal where
  | str (s : String)
  | num (q : ℚ)
  | bool (b : Bool)
  | null
  | obj (fields : List (String × JVal))
  deriving Repr

/-- Association-list dictionary with Python-dict (unique-key, first-match)
lookup semantics. -/
abbrev Dict := List (String × JVal)

/-- `d.get(k)` — first occurrence wins, `none` if absent. -/
def Dict.get? (d : Dict) (k : String) : Option JVal :=
  match d with
  | [] => none
  | (k', v) :: rest => if k' = k then some v else Dict.get? rest k

/-- `d[k] = v`: overwrite the first occurrence in place, else append
(dict insertion-order semantics). -/
def Dict.setKey (d : Dict) (k : String) (v : JVal) : Dict :=
  match d with
  | [] => [(k, v)]
  | (k', v') :: rest => if k' = k then (k', v) :: rest else (k', v') :: Dict.setKey rest k v

/-- `e.update(fields)`: apply each binding left to right. -/
def Dict.updateWith (d fields : Dict) : Dict :=
  fields.foldl (fun acc kv => Dict.setKey acc kv.1 kv.2) d

/-- Is a stored value the given string?  Models Python `value == key` where
`key` is a `str` (cross-type `==` is `False`). -/
def valEqStr (v : Option JVal) (k : String) : Bool :=
  match v with
  | some (.str s) => s = k
  | _ => false

/-- Python `int(value)` for dict values: ints/floats truncate toward zero,
booleans coerce, numeric strings parse, everything else raises (`none`). -/
def pyIntOfVal (v : JVal) : Option Int :=
  match v with
  | .num q => some (q.num / (q.den : Int))
  | .bool b => some (if b then 1 else 0)
  | .str s => pyInt? s
  | _ => none

/-! ## `learning/patterns.py` — the Preference Learner -/

namespace Patterns

/-- `hhmm_to_minutes`: `h, m = hhmm.split(":"); int(h)*60 + int(m)`.
`none` models the exceptions raised on malformed input (wrong number of
`:`-separated pieces, or non-integer pieces). -/
def hhmm_to_minutes (hhmm : String) : Option Int :=
  match splitOnChar hhmm ':' with
  | [h, m] => do
    let hv ← pyInt? h
    let mv ← pyInt? m
    pure (hv * 60 + mv)
  | _ => none

/-- `minutes_to_hhmm`: floor-divide into hours/minutes and `%02d`-format. -/
def minutes_to_hhmm (minutes : Int) : String :=
  fmt02d (Int.fdiv minutes 60) ++ ":" ++ fmt02d (Int.emod minutes 60)

/-- One audit-log record as read by `learn_preferences` (the fields it
accesses; the writer `core/audit.py::log_block_outcome` always stores these
as strings, `Option` models a missing/`null` field). -/
structure AuditRec where
  title : Option String := none
  outcome : Option String := none
  planned_start : Option String := none

/-- Priority bucketing from the lower-cased title. -/
def bucketOf (titleLower : String) : String :=
  if containsSub titleLower "deep work" ∨ containsSub titleLower "focus" then "high"
  else if containsSub titleLower "errand" ∨ containsSub titleLower "light" then "low"
  else "normal"

/-- `defaultdict(list)` keyed by bucket, insertion-ordered. -/
def bucketAppend (buckets : List (String × List Int)) (pr : String) (v : Int) :
    List (String × List Int) :=
  match buckets with
  | [] => [(pr, [v])]
  | (k, l) :: rest =>
    if k = pr then (k, l ++ [v]) :: rest else (k, l) :: bucketAppend rest pr v

/-- One iteration of the record loop of `learn_preferences`.  `none` models
the uncaught exception from `hhmm_to_minutes` on a malformed start. -/
def learnStep (buckets : List (String × List Int)) (rec : AuditRec) :
    Option (List (String × List Int)) :=
  let outcome := pyLower (rec.outcome.getD "")
  if outcome ≠ "done" ∧ outcome ≠ "partial" then some buckets
  else
    let title := pyLower (rec.title.getD "")
    match rec.planned_start with
    | none => some buckets
    | some start =>
      if start = "" then some buckets
      else (hhmm_to_minutes start).map (fun v => bucketAppend buckets (bucketOf title) v)

/-- `learn_preferences` (pure core: the audit log is passed in, the JSON
write of the resulting profile is dropped).  Result: the `by_priority`
mapping, as `(bucket, preferred_start)` pairs in bucket insertion order. -/
def learn_preferences (records : List AuditRec) : Option (List (String × String)) := do
  let buckets ← records.foldlM learnStep []
  pure <| buckets.filterMap fun kv =>
    if kv.2 = [] then none
    else some (kv.1, minutes_to_hhmm (Int.fdiv (kv.2.foldl (· + ·) 0) kv.2.length))

end Patterns

/-! ## `utils/budget.py` — the Budget Tracker -/

namespace Budget

/-- Python `round(x, 4)` on the exactly-representable values this module
handles: round half to even at 4 decimal places. -/
def roundHalfEvenInt (x : ℚ) : Int :=
  let f := ⌊x⌋
  let r := x - f
  if r < 1/2 then f
  else if 1/2 < r then f + 1
  else if f % 2 = 0 then f else f + 1

def round4 (q : ℚ) : ℚ :=
  (roundHalfEvenInt (q * 10000) : ℚ) / 10000

def PRICE_PER_1K_INPUT : ℚ := 0.005

def PRICE_PER_1K_OUTPUT : ℚ := 0.015

/-- `estimate_cost(tokens_in, tokens_out)`. -/
def estimate_cost (tokens_in tokens_out : Int) : ℚ :=
  ((tokens_in : ℚ) / 1000) * PRICE_PER_1K_INPUT + ((tokens_out : ℚ) / 1000) * PRICE_PER_1K_OUTPUT

/-- One history entry `{ts, tokens_in, tokens_out, usd_estimate, note}`
(the wall-clock `ts` is not modelled). -/
structure Entry where
  tokens_in : Int
  tokens_out : Int
  usd_estimate : ℚ
  note : String

/-- `budget_usage.json` contents. -/
structure BudgetData where
  period : String := "weekly"
  limit_usd : ℚ := 8
  history : List Entry := []

/-- The `DEFAULT` initial file contents. -/
def DEFAULT : BudgetData := {}

/-- `record(tokens_in, tokens_out, note)`: append an entry with the
4-decimal-rounded estimate, return the (unrounded) estimate. -/
def record (tokens_in tokens_out : Int) (note : String) (data : BudgetData) :
    BudgetData × ℚ :=
  let usd := estimate_cost tokens_in tokens_out
  ({ data with
      history := data.history ++
        [{ tokens_in, tokens_out, usd_estimate := round4 usd, note }] },
   usd)

/-- `total_spend()`: all-time sum of recorded estimates, rounded to
4 decimals. -/
def total_spend (data : BudgetData) : ℚ :=
  round4 (data.history.foldl (fun a e => a + e.usd_estimate) 0)

end Budget

/-! ## `email_service/feedback_handler.py` — the Feedback Loop -/

namespace FeedbackLoop

/-- Per-source / per-keyword integer scores (`feedback.json` maps),
insertion-ordered with unique keys. -/
abbrev ScoreMap := List (String × Int)

/-- `m.setdefault(k, 0); m[k] += d`. -/
def addTo : ScoreMap → String → Int → ScoreMap
  | [], k, d => [(k, d)]
  | (k', v) :: rest, k, d =>
    if k' = k then (k', v + d) :: rest else (k', v) :: addTo rest k d

/-- Score lookup (missing key scores 0). -/
def score (m : ScoreMap) (k : String) : Int :=
  match m with
  | [] => 0
  | (k', v) :: rest => if k' = k then v else score rest k

structure Feedback where
  sources : ScoreMap := []
  keywords : ScoreMap := []

/-- An article as consumed by `update_feedback`: `article.get("source")`
may be absent, `article["title"]` is required. -/
structure Article where
  source : Option String := none
  title : String

/-- `update_feedback(article, vote)` (pure core: the surrounding
load/save of `feedback.json` is the identity on the profile value). -/
def update_feedback (feedback : Feedback) (article : Article) (vote : String) :
    Feedback :=
  let d : Int := if vote = "up" then 1 else -1
  let feedback :=
    match article.source with
    | some s => if s ≠ "" then { feedback with sources := addTo feedback.sources s d }
                else feedback
    | none => feedback
  let title_keywords := pyWords (pyLower article.title)
  title_keywords.foldl
    (fun fb kw =>
      if kw.length > 3 then { fb with keywords := addTo fb.keywords kw d } else fb)
    feedback

end FeedbackLoop

/-! ## `alden_calendar/calendar.py` — the Local Calendar Store -/

namespace CalendarStore

/-- `_match_id_or_title`: `ev.get("id") == key or ev.get("title") == key`. -/
def matchIdOrTitle (ev : Dict) (id_or_title : String) : Bool :=
  valEqStr (ev.get? "id") id_or_title || valEqStr (ev.get? "title") id_or_title

/-- `delete_event` (pure core over the loaded event list): keep the events
that do not match; report whether anything was removed. -/
def delete_event (events : List Dict) (id_or_title : String) :
    List Dict × Bool :=
  let new_events := events.filter (fun e => ¬ matchIdOrTitle e id_or_title)
  (new_events, new_events.length ≠ events.length)

/-- The `duration_min` int-coercion performed on the update fields:
`fields["duration_min"] = int(fields["duration_min"])`, leaving the field
untouched if the coercion raises, skipping it if absent or `None`. -/
def coerceDuration (fields : Dict) : Dict :=
  match fields.get? "duration_min" with
  | some .null => fields
  | some v =>
    match pyIntOfVal v with
    | some n => fields.setKey "duration_min" (.num n)
    | none => fields
  | none => fields

/-- Drop `None`-valued fields, then `e.update(...)`. -/
def applyFields (e fields : Dict) : Dict :=
  e.updateWith ((coerceDuration fields).filter fun kv =>
    match kv.2 with
    | .null => false
    | _ => true)

/-- The scan-and-break loop of `update_event`. -/
def updateGo (id_or_title : String) (fields : Dict) :
    List Dict → List Dict × Option Dict
  | [] => ([], none)
  | e :: rest =>
    if matchIdOrTitle e id_or_title then
      (applyFields e fields :: rest, some (applyFields e fields))
    else
      let r := updateGo id_or_title fields rest
      (e :: r.1, r.2)

/-- `update_event` (pure core over the loaded event list): mutate the first
matching event in store order, return the resulting list and the updated
record (or `none`; in that case the file is not re-saved and the list is
unchanged). -/
def update_event (events : List Dict) (id_or_title : String) (fields : Dict) :
    List Dict × Option Dict :=
  updateGo id_or_title fields events

end CalendarStore

/-! ## `alden_main/main_agents/data_collector.py` — GPS telemetry -/

namespace DataCollector

/-- Leading digits of a character list and the remainder. -/
def digitsValD (cs : List Char) : Nat :=
  cs.foldl (fun a c => a * 10 + (c.toNat - 48)) 0

/-- Optional exponent suffix `e`/`E` with optional sign; `some 0` on empty
input, `none` if the remainder is not a well-formed exponent. -/
def parseExp (cs : List Char) : Option Int :=
  match cs with
  | [] => some 0
  | e :: rest =>
    if e = 'e' ∨ e = 'E' then
      match rest with
      | '-' :: ds => (digitsVal ds).map (fun n => -(n : Int))
      | '+' :: ds => (digitsVal ds).map (fun n => (n : Int))
      | ds => (digitsVal ds).map (fun n => (n : Int))
    else none

def qpow10 (e : Int) : ℚ :=
  if 0 ≤ e then ((10 : ℚ) ^ e.toNat) else 1 / ((10 : ℚ) ^ (-e).toNat)

/-- Unsigned Python float literal: `digits`, `digits.digits`, `digits.`,
`.digits`, each with an optional exponent. -/
def parseUFloat (cs : List Char) : Option ℚ :=
  let ip := cs.takeWhile Char.isDigit
  let r1 := cs.dropWhile Char.isDigit
  match r1 with
  | '.' :: r2 =>
    let fp := r2.takeWhile Char.isDigit
    let r3 := r2.dropWhile Char.isDigit
    if ip = [] ∧ fp = [] then none
    else
      (parseExp r3).map fun e =>
        ((digitsValD ip : ℚ) + (digitsValD fp : ℚ) / (10 : ℚ) ^ fp.length) * qpow10 e
  | _ =>
    if ip = [] then none
    else (parseExp r1).map fun e => (digitsValD ip : ℚ) * qpow10 e

/-- Python `float(s)` on a string: strip whitespace, optional sign, then a
float literal.  The non-finite literals `inf`/`nan` (and digit-group
underscores) are outside this model and parse as `none`; no datum in this
repository produces them. -/
def pyFloatStr? (s : String) : Option ℚ :=
  match trimChars s.toList with
  | '-' :: rest => (parseUFloat rest).map (fun q => -q)
  | '+' :: rest => parseUFloat rest
  | cs => parseUFloat cs

/-- Python `float(v)` on a dict value: numbers pass through, booleans
coerce, strings parse, everything else raises (`none`). -/
def pyFloatVal (v : JVal) : Option ℚ :=
  match v with
  | .num q => some q
  | .bool b => some (if b then 1 else 0)
  | .str s => pyFloatStr? s
  | _ => none

/-- Split a character list at the first occurrence of `c`
(`s.split(c, 1)`); if `c` does not occur the second component is empty. -/
def splitOnceAt (cs : List Char) (c : Char) : List Char × List Char :=
  match cs with
  | [] => ([], [])
  | x :: xs =>
    if x = c then ([], xs)
    else
      let r := splitOnceAt xs c
      (x :: r.1, r.2)

/-- `_validate_gps(payload)`: `.ok ()` when the payload passes, `.error msg`
modelling the raised exception otherwise. -/
def validate_gps (payload : JVal) : Except String Unit :=
  match payload with
  | .obj p =>
    match Dict.get? p "coords" with
    | some (.str s) =>
      if s.toList.contains ',' then
        let parts := splitOnceAt s.toList ','
        if (pyFloatStr? (String.mk parts.1)).isSome ∧
           (pyFloatStr? (String.mk parts.2)).isSome then Except.ok ()
        else Except.error "could not convert string to float"
      else Except.error "GPS.coords must be 'lat,lon' string"
    | some _ => Except.error "GPS.coords must be 'lat,lon' string"
    | none =>
      match Dict.get? p "lat", Dict.get? p "lon" with
      | some la, some lo =>
        if (pyFloatVal la).isSome ∧ (pyFloatVal lo).isSome then Except.ok ()
        else Except.error "could not convert to float"
      | _, _ => Except.error "GPS requires 'coords' or 'lat'+'lon'"
  | _ => Except.error "GPS payload must be an object"

/-- One row of the `gps` table (`local_id` is the list position;
`ts_utc`, a wall-clock insertion time, is not modelled). -/
structure GpsRow where
  flow_id : String
  lat : ℚ
  lon : ℚ

/-- The relevant slice of `stores.db`. -/
structure DB where
  flows : List String := []
  gps : List GpsRow := []

/-- `_ensure_flow`: `INSERT OR IGNORE INTO flows`. -/
def ensure_flow (db : DB) (flow_id : String) : DB :=
  if db.flows.contains flow_id then db else { db with flows := db.flows ++ [flow_id] }

/-- `_store_gps`: extract `lat`/`lon` from `coords` (split on the first
comma, strip, `float`) or from the top-level fields, insert one row, return
the new row id.  `none` models an uncaught conversion error. -/
def store_gps (db : DB) (flow_id : String) (p : Dict) : Option (DB × Nat) := do
  let latlon ←
    match Dict.get? p "coords" with
    | some (.str s) =>
      let parts := splitOnceAt s.toList ','
      do
        let la ← pyFloatStr? (String.mk (trimChars parts.1))
        let lo ← pyFloatStr? (String.mk (trimChars parts.2))
        pure (la, lo)
    | some _ => none
    | none => do
      let la ← pyFloatVal (← Dict.get? p "lat")
      let lo ← pyFloatVal (← Dict.get? p "lon")
      pure (la, lo)
  pure ({ db with gps := db.gps ++ [⟨flow_id, latlon.1, latlon.2⟩] }, db.gps.length + 1)

/-- `send_data` result record `{"status","category","flow_id","rows"}`. -/
structure SendResult where
  status : String
  category : String
  flow_id : String
  rows : Nat

/-- `send_data("GPS", payload, flow_id=...)`: validate, auto-generate the
flow identifier when none is supplied (`genId` stands for the fresh
`flow_<12 hex>` value), register the flow and store the row.  `init_db` is
schema-only and has no effect on the modelled state. -/
def send_data_gps (payload : JVal) (flow_id? : Option String) (genId : String)
    (db : DB) : Except String (DB × SendResult) :=
  match validate_gps payload with
  | .error m => Except.error m
  | .ok () =>
    let flow_id := flow_id?.getD genId
    let db := ensure_flow db flow_id
    match payload with
    | .obj p =>
      match store_gps db flow_id p with
      | some (db', rows) => Except.ok (db', ⟨"ok", "GPS", flow_id, rows⟩)
      | none => Except.error "could not convert to float"
    | _ => Except.error "GPS payload must be an object"

end DataCollector

/-! ## `core/notifications.py` — the timestamped Nudge Engine -/

namespace Notifications

/-- `CONFIG["nudges"]` defaults (`utils/config.py`). -/
structure NudgesCfg where
  prep_high_minutes : Int := 10
  prep_normal_minutes : Int := 5
  wrap_minutes : Int := 2
  gap_mid_check_min_duration : Int := 60

/-- `CONFIG["notifications"]["types"]` defaults. -/
structure NotifTypes where
  prep : Bool := true
  mid_gap_check : Bool := true
  wrap : Bool := true
  day_wrap : Bool := true

/-- The configuration slice `build_nudge_schedule` reads. -/
structure Config where
  notificationsEnabled : Bool := true
  types : NotifTypes := {}
  nudges : NudgesCfg := {}

def CONFIG : Config := {}

/-- A plan block as read by the nudge engine (string `HH:MM` times; the
source's `end` key is `stop` here because `end` is reserved in Lean;
defaults mirror the `blk.get(...)` fallbacks). -/
structure NBlock where
  start : String := ""
  stop : String := ""
  title : String := "Untitled"
  priority : String := "normal"
  source : String := "gap"
  deriving DecidableEq, Repr

/-- `_hhmm_to_dt_for_day`: parse `HH:MM` onto the reference date
(`datetime.replace` validates the field ranges; failures give `none`). -/
def hhmm_to_dt_for_day (hhmm : String) (ref : Int) : Option Int :=
  match splitOnChar hhmm ':' with
  | [h, m] => do
    let hv ← pyInt? h
    let mv ← pyInt? m
    if 0 ≤ hv ∧ hv ≤ 23 ∧ 0 ≤ mv ∧ mv ≤ 59 then
      some (dayBase ref + 3600 * hv + 60 * mv)
    else none
  | _ => none

/-- A schedule entry; `at` is the minute count of the
`isoformat(timespec="minutes")` timestamp (minute truncation included, so
ordering `at` is ordering the emitted ISO strings). -/
structure Entry where
  atM : Int
  type : String
  message : String
  deriving DecidableEq, Repr

/-- The prep / mid-gap / wrap entries one block contributes. -/
def blockNudges (cfg : Config) (ref : Int) (blk : NBlock) : List Entry :=
  match hhmm_to_dt_for_day blk.start ref, hhmm_to_dt_for_day blk.stop ref with
  | some start, some stop =>
    let prepL :=
      if cfg.types.prep ∧ blk.source = "event" then
        let delta := if blk.priority = "high" then cfg.nudges.prep_high_minutes
                     else cfg.nudges.prep_normal_minutes
        let atT := start - 60 * delta
        [⟨Int.fdiv atT 60, "prep",
          "Prep for **" ++ blk.title ++ "** at " ++ fmtHHMM atT ++ " (" ++
            blk.priority ++ ")."⟩]
      else []
    let midL :=
      if cfg.types.mid_gap_check ∧ blk.source = "gap" then
        let dur_min := Int.fdiv (stop - start) 60
        if cfg.nudges.gap_mid_check_min_duration ≤ dur_min then
          let mid := start + (stop - start) / 2
          [⟨Int.fdiv mid 60, "mid",
            "Mid-block check-in " ++ fmtHHMM mid ++ ": still on **" ++ blk.title ++ "**?"⟩]
        else []
      else []
    let wrapL :=
      if cfg.types.wrap then
        let wrap_at := stop - 60 * cfg.nudges.wrap_minutes
        [⟨Int.fdiv wrap_at 60, "wrap",
          "Wrap **" ++ blk.title ++ "** at " ++ fmtHHMM wrap_at ++
            ": capture notes/next step."⟩]
      else []
    prepL ++ midL ++ wrapL
  | _, _ => []

/-- The source's day-wrap message (its `2â€‘min` mojibake is reproduced
byte-for-byte). -/
def dayWrapMsg (last_dt : Int) : String :=
  "Day wrap at " ++ fmtHHMM last_dt ++
    ": 2â€‘min reflection + tomorrow first task."

/-- `build_nudge_schedule(plan, ref)`: per-block entries, one trailing
day-wrap entry anchored at the last block's end, then a stable sort
ascending by timestamp (Python's stable `list.sort` on the ISO strings;
insertion sort is likewise stable and `at` orders exactly as the strings
do). -/
def build_nudge_schedule (plan : List NBlock) (ref : Int) : List Entry :=
  if ¬ CONFIG.notificationsEnabled then []
  else
    let out := plan.foldl (fun acc blk => acc ++ blockNudges CONFIG ref blk) []
    let out :=
      if CONFIG.types.day_wrap ∧ plan ≠ [] then
        match plan.getLast? with
        | some lastBlk =>
          match hhmm_to_dt_for_day lastBlk.stop ref with
          | some last_dt => out ++ [⟨Int.fdiv last_dt 60, "day_wrap", dayWrapMsg last_dt⟩]
          | none => out
        | none => out
      else out
    List.insertionSort (fun a b => a.atM ≤ b.atM) out

end Notifications

/-! ## `planning/daily_planner.py` — the Daily Planner

Events are the calendar store's dicts.  Blocks carry their times as `Int`
seconds (the `datetime` values the source formats with
`strftime("%H:%M")` as it emits each block); `fmtHHMM` is the rendering.
-/

namespace Planner

def WORK_START : Int × Int := (8, 0)

def WORK_END : Int × Int := (20, 0)

def MIN_GAP_BLOCK_MIN : Int := 30

/-- `_priority_weight(e.get("priority"))` with the `(p or "normal")`
fallback.  (A truthy non-string priority would raise in the source; every
priority in this store is a string, and non-strings weigh `1` here.) -/
def priority_weight (p : Option JVal) : Nat :=
  match p with
  | some (.str s) =>
    let l := pyLower s
    if l = "high" then 0 else if l = "normal" then 1 else if l = "low" then 2 else 1
  | _ => 1

/-- `_get_duration`: `int(e.get("duration_min", 60))` clamped to
`[5, 720]` minutes, `60` if the coercion raises. -/
def get_duration (e : Dict) : Int :=
  match pyIntOfVal ((Dict.get? e "duration_min").getD (.num 60)) with
  | some d => max 5 (min d 720)
  | none => 60

/-- `_work_bounds(day)`: 08:00 and 20:00 on the reference day. -/
def work_bounds (now : Int) : Int × Int :=
  (dayBase now + 3600 * WORK_START.1 + 60 * WORK_START.2,
   dayBase now + 3600 * WORK_END.1 + 60 * WORK_END.2)

/-- String field with a default (`e.get(k, default)` where the value, when
present, is a string; a non-string falls back to the default). -/
def getStrD (e : Dict) (k dflt : String) : String :=
  match Dict.get? e k with
  | some (.str s) => s
  | _ => dflt

/-- An event annotated by the filter pass: the shallow-copied dict plus the
`_start` / `_dur` / `_end` / `_pwt` fields (the source's `_end` is `stop`
here because `end` is reserved in Lean). -/
structure PEvent where
  dict : Dict
  start : Int
  dur : Int
  stop : Int
  pwt : Nat

/-- The filter-and-annotate pass of `plan_day`: keep events whose `time`
parses onto the reference day; attach start, clamped duration, end and
priority weight. -/
def filterTodays (events : List Dict) (now : Int) : List PEvent :=
  events.filterMap fun e =>
    match parseISO (getStrD e "time" "") with
    | none => none
    | some t =>
      if dateOf t ≠ dateOf now then none
      else
        let dur := get_duration e
        some ⟨e, t, dur, t + 60 * dur, priority_weight (Dict.get? e "priority")⟩

/-- The sort key order `(start time, priority weight)` of
`todays.sort(...)`. -/
def keyLe (a b : PEvent) : Prop :=
  a.start < b.start ∨ (a.start = b.start ∧ a.pwt ≤ b.pwt)

instance : DecidableRel keyLe := fun a b =>
  inferInstanceAs (Decidable (a.start < b.start ∨ (a.start = b.start ∧ a.pwt ≤ b.pwt)))

/-- A reschedule proposal `{"id","title","old_start","new_start","duration_min"}`. -/
structure Resched where
  id : Option JVal
  title : String
  old_start : String
  new_start : String
  duration_min : Int

def reschedOf (orig moved : PEvent) : Resched :=
  ⟨Dict.get? orig.dict "id", getStrD orig.dict "title" "(untitled)",
   isoMinutes orig.start, isoMinutes moved.start, moved.dur⟩

/-- One step of the de-conflict walk: compare the candidate against the
last scheduled item only. -/
def deconflictStep (acc : List PEvent × List Resched × List String)
    (e : PEvent) : List PEvent × List Resched × List String :=
  let sched := acc.1
  let res := acc.2.1
  let nudges := acc.2.2
  match sched.getLast? with
  | none => (sched ++ [e], res, nudges)
  | some last =>
    if last.stop ≤ e.start then (sched ++ [e], res, nudges)
    else if e.pwt < last.pwt then
      let ns := max e.stop last.start
      let moved : PEvent := { last with start := ns, stop := ns + 60 * last.dur }
      (sched.dropLast ++ [e, moved], res ++ [reschedOf last moved],
       nudges ++
        ["Rescheduled **" ++ getStrD last.dict "title" "(untitled)" ++ "** to " ++
          fmtHHMM moved.start ++ " due to conflict with high-priority **" ++
          getStrD e.dict "title" "(untitled)" ++ "**."])
    else
      let moved : PEvent := { e with start := last.stop, stop := last.stop + 60 * e.dur }
      (sched ++ [moved], res ++ [reschedOf e moved],
       nudges ++
        ["Rescheduled **" ++ getStrD e.dict "title" "(untitled)" ++ "** to " ++
          fmtHHMM moved.start ++ " due to conflict with **" ++
          getStrD last.dict "title" "(untitled)" ++ "**."])

def deconflict (todays : List PEvent) : List PEvent × List Resched × List String :=
  todays.foldl deconflictStep ([], [], [])

/-- A plan block; `start`/`stop` are the `Int` timestamps the source
renders with `strftime("%H:%M")` into its `start`/`end` strings. -/
structure Block where
  start : Int
  stop : Int
  title : String
  priority : String
  source : String
  event_id : Option JVal := none

/-- A focus-block proposal (rendered `{"start": HH:MM, "end": HH:MM}`). -/
structure Focus where
  start : Int
  stop : Int

/-- `(e.get("priority") or "normal")` as emitted on event blocks. -/
def blockPriority (e : Dict) : String :=
  match Dict.get? e "priority" with
  | some (.str s) => if s = "" then "normal" else s
  | _ => "normal"

def gapBlock (cursor untl : Int) (prio : String) : Block :=
  ⟨cursor, untl, "Open Focus Block", prio, "gap", none⟩

def eventBlock (e : PEvent) (es ee : Int) : Block :=
  ⟨es, ee, getStrD e.dict "title" "Untitled", blockPriority e.dict, "event",
   Dict.get? e.dict "id"⟩

/-- The cursor / blocks / focus-blocks state of the block-building walk. -/
structure BuildSt where
  cursor : Int
  blocks : List Block
  focus : List Focus

/-- `_add_gap(until)`: advance the cursor, emitting an "Open Focus Block"
when the gap is at least 30 minutes. -/
def addGap (s : BuildSt) (untl : Int) (prio : String) : BuildSt :=
  if untl ≤ s.cursor then s
  else if MIN_GAP_BLOCK_MIN ≤ Int.fdiv (untl - s.cursor) 60 then
    { cursor := untl,
      blocks := s.blocks ++ [gapBlock s.cursor untl prio],
      focus := s.focus ++ [⟨s.cursor, untl⟩] }
  else { s with cursor := untl }

/-- The per-event body of the block-building walk: clamp to the work
window, add the preceding gap, emit the event block when nonempty. -/
def buildLoop (ds de : Int) : BuildSt → List PEvent → BuildSt
  | s, [] => s
  | s, e :: rest =>
    let es := max e.start ds
    let ee := min e.stop de
    let s1 := addGap s es "normal"
    if es < ee then
      buildLoop ds de ⟨ee, s1.blocks ++ [eventBlock e es ee], s1.focus⟩ rest
    else buildLoop ds de s1 rest

/-- Block building over the final scheduled sequence, including the
trailing low-priority gap. -/
def buildBlocks (ds de : Int) (sched : List PEvent) : List Block × List Focus :=
  let s := buildLoop ds de ⟨ds, [], []⟩ sched
  if s.cursor < de ∧ MIN_GAP_BLOCK_MIN ≤ Int.fdiv (de - s.cursor) 60 then
    (s.blocks ++ [gapBlock s.cursor de "low"], s.focus ++ [⟨s.cursor, de⟩])
  else (s.blocks, s.focus)

/-- The fixed four-block fallback template (times on the reference day). -/
def templateBlocks (now : Int) : List Block :=
  let b := dayBase now
  [⟨b + 9 * 3600, b + 11 * 3600, "Deep Work", "high", "gap", none⟩,
   ⟨b + 11 * 3600, b + 12 * 3600, "Admin / Messages", "normal", "gap", none⟩,
   ⟨b + 13 * 3600, b + 15 * 3600, "Project Block", "normal", "gap", none⟩,
   ⟨b + 15 * 3600 + 1800, b + 17 * 3600, "Light Tasks", "low", "gap", none⟩]

def fallbackNudge : String := "No events this day—proposed a focus-first schedule."

/-- `plan_day` output `{blocks, nudges, reschedules, focus_blocks}`. -/
structure Plan where
  blocks : List Block
  nudges : List String
  reschedules : List Resched
  focus_blocks : List Focus

/-- `plan_day(events, ref_date)` (the reference date is always passed;
`datetime.now()` is a caller-side default). -/
def plan_day (events : List Dict) (ref : Int) : Plan :=
  let bounds := work_bounds ref
  let todays := filterTodays events ref
  let sorted := List.insertionSort keyLe todays
  let dcr := deconflict sorted
  let scheduled := dcr.1
  let bf := buildBlocks bounds.1 bounds.2 scheduled
  if scheduled.isEmpty then
    { blocks := templateBlocks ref,
      nudges := dcr.2.2 ++ [fallbackNudge],
      reschedules := [],
      focus_blocks := [] }
  else
    { blocks := bf.1,
      nudges := dcr.2.2,
      reschedules := dcr.2.1,
      focus_blocks := bf.2 }

end Planner

/-! ## `plan_day` again, with an explicit dict heap

The frame property of `plan_day` — the input list and the event dicts it
points at are untouched — is about aliasing, so this second embedding makes
it observable: event dicts live on a heap of mutable cells, the input is a
list of references, `e = dict(e)` allocates a fresh cell, and the planner's
annotations are in-place writes to cells.  Had the source omitted the
shallow copies, the writes below would hit the caller's cells and the frame
theorem would fail. -/

namespace HeapModel

/-- Values held in an event dict during planning: the stored JSON fields
plus the parsed `datetime` / int annotations the planner writes. -/
inductive HV where
  | js (v : JVal)
  | dt (t : Int)
  | int (n : Int)

abbrev HDict := List (String × HV)

abbrev Heap := List HDict

abbrev Ref := Nat

def hget? (d : HDict) (k : String) : Option HV :=
  match d with
  | [] => none
  | (k', v) :: rest => if k' = k then some v else hget? rest k

def hset (d : HDict) (k : String) (v : HV) : HDict :=
  match d with
  | [] => [(k, v)]
  | (k', v') :: rest => if k' = k then (k', v) :: rest else (k', v') :: hset rest k v

/-- Dereference (unallocated references read as an empty dict; the planner
only ever dereferences live references). -/
def Heap.read (h : Heap) (r : Ref) : HDict :=
  (h.get? r).getD []

/-- `dict(e)`: allocate a fresh cell holding a copy. -/
def Heap.alloc (h : Heap) (d : HDict) : Heap × Ref :=
  (h ++ [d], h.length)

/-- `e[k] = v`: in-place update of a cell. -/
def Heap.write (h : Heap) (r : Ref) (k : String) (v : HV) : Heap :=
  h.set r (hset (h.read r) k v)

/-- The stored JSON value of a field (planner-internal annotation keys hold
no JSON value). -/
def hgetJ (h : Heap) (r : Ref) (k : String) : Option JVal :=
  match hget? (h.read r) k with
  | some (.js v) => some v
  | _ => none

def hGetStrD (h : Heap) (r : Ref) (k dflt : String) : String :=
  match hgetJ h r k with
  | some (.str s) => s
  | _ => dflt

/-- `_start` / `_end` reads (always written before read). -/
def readDt (h : Heap) (r : Ref) (k : String) : Int :=
  match hget? (h.read r) k with
  | some (.dt t) => t
  | _ => 0

/-- `_dur` / `_pwt` reads (always written before read). -/
def readInt (h : Heap) (r : Ref) (k : String) : Int :=
  match hget? (h.read r) k with
  | some (.int n) => n
  | _ => 0

def hGetDuration (h : Heap) (r : Ref) : Int :=
  match (hgetJ h r "duration_min").getD (.num 60) with
  | v =>
    match pyIntOfVal v with
    | some d => max 5 (min d 720)
    | none => 60

/-- The filter-and-annotate loop: copy each same-day event and write its
`_start` / `_dur` / `_end` / `_pwt` fields onto the copy. -/
def annotateOne (ref : Int) (acc : Heap × List Ref) (r : Ref) : Heap × List Ref :=
  let h := acc.1
  match parseISO (hGetStrD h r "time" "") with
  | none => acc
  | some t =>
    if dateOf t ≠ dateOf ref then acc
    else
      let ar := h.alloc (h.read r)
      let h1 := ar.1.write ar.2 "_start" (.dt t)
      let dur := hGetDuration h1 ar.2
      let h2 := h1.write ar.2 "_dur" (.int dur)
      let h3 := h2.write ar.2 "_end" (.dt (t + 60 * readInt h2 ar.2 "_dur"))
      let h4 := h3.write ar.2 "_pwt"
        (.int (Planner.priority_weight (hgetJ h3 ar.2 "priority") : Int))
      (h4, acc.2 ++ [ar.2])

/-- The sort key over annotated references. -/
def keyB (h : Heap) (a b : Ref) : Bool :=
  readDt h a "_start" < readDt h b "_start" ∨
    (readDt h a "_start" = readDt h b "_start" ∧
      readInt h a "_pwt" ≤ readInt h b "_pwt")

def reschedOfH (h : Heap) (origR : Ref) (oldStart newStart : Int) (dur : Int) :
    Planner.Resched :=
  ⟨hgetJ h origR "id", hGetStrD h origR "title" "(untitled)",
   isoMinutes oldStart, isoMinutes newStart, dur⟩

/-- One step of the de-conflict walk on heap references; `moved = dict(last)`
allocates a fresh cell, and the `_start`/`_end` updates hit that cell. -/
def deconflictStepH (acc : Heap × List Ref × List Planner.Resched × List String)
    (r : Ref) : Heap × List Ref × List Planner.Resched × List String :=
  let h := acc.1
  let sched := acc.2.1
  let res := acc.2.2.1
  let nudges := acc.2.2.2
  match sched.getLast? with
  | none => (h, sched ++ [r], res, nudges)
  | some lastR =>
    if readDt h lastR "_end" ≤ readDt h r "_start" then
      (h, sched ++ [r], res, nudges)
    else if readInt h r "_pwt" < readInt h lastR "_pwt" then
      let oldStart := readDt h lastR "_start"
      let ar := h.alloc (h.read lastR)
      let h1 := ar.1
      let ns := max (readDt h1 r "_end") (readDt h1 ar.2 "_start")
      let h2 := h1.write ar.2 "_start" (.dt ns)
      let h3 := h2.write ar.2 "_end" (.dt (ns + 60 * readInt h2 ar.2 "_dur"))
      (h3, sched.dropLast ++ [r, ar.2],
       res ++ [reschedOfH h3 lastR oldStart ns (readInt h2 ar.2 "_dur")],
       nudges ++
        ["Rescheduled **" ++ hGetStrD h3 lastR "title" "(untitled)" ++ "** to " ++
          fmtHHMM ns ++ " due to conflict with high-priority **" ++
          hGetStrD h3 r "title" "(untitled)" ++ "**."])
    else
      let oldStart := readDt h r "_start"
      let lastEnd := readDt h lastR "_end"
      let ar := h.alloc (h.read r)
      let h1 := ar.1
      let h2 := h1.write ar.2 "_start" (.dt lastEnd)
      let h3 := h2.write ar.2 "_end" (.dt (lastEnd + 60 * readInt h2 ar.2 "_dur"))
      (h3, sched ++ [ar.2],
       res ++ [reschedOfH h3 r oldStart lastEnd (readInt h2 ar.2 "_dur")],
       nudges ++
        ["Rescheduled **" ++ hGetStrD h3 r "title" "(untitled)" ++ "** to " ++
          fmtHHMM lastEnd ++ " due to conflict with **" ++
          hGetStrD h3 lastR "title" "(untitled)" ++ "**."])

def eventBlockH (h : Heap) (r : Ref) (es ee : Int) : Planner.Block :=
  ⟨es, ee, hGetStrD h r "title" "Untitled",
   (match hgetJ h r "priority" with
    | some (.str s) => if s = "" then "normal" else s
    | _ => "normal"),
   "event", hgetJ h r "id"⟩

/-- Block building over references (reads only; the heap is untouched). -/
def buildLoopH (h : Heap) (ds de : Int) :
    Planner.BuildSt → List Ref → Planner.BuildSt
  | s, [] => s
  | s, r :: rest =>
    let es := max (readDt h r "_start") ds
    let ee := min (readDt h r "_end") de
    let s1 := Planner.addGap s es "normal"
    if es < ee then
      buildLoopH h ds de ⟨ee, s1.blocks ++ [eventBlockH h r es ee], s1.focus⟩ rest
    else buildLoopH h ds de s1 rest

def buildBlocksH (h : Heap) (ds de : Int) (sched : List Ref) :
    List Planner.Block × List Planner.Focus :=
  let s := buildLoopH h ds de ⟨ds, [], []⟩ sched
  if s.cursor < de ∧ Planner.MIN_GAP_BLOCK_MIN ≤ Int.fdiv (de - s.cursor) 60 then
    (s.blocks ++ [Planner.gapBlock s.cursor de "low"], s.focus ++ [⟨s.cursor, de⟩])
  else (s.blocks, s.focus)

/-- `plan_day` on the heap: same algorithm as `Planner.plan_day`, but the
events come in as references to heap cells, and the final heap is returned
alongside the plan. -/
def plan_day (h : Heap) (events : List Ref) (ref : Int) : Heap × Planner.Plan :=
  let bounds := Planner.work_bounds ref
  let ann := events.foldl (annotateOne ref) (h, [])
  let h1 := ann.1
  let sorted := List.insertionSort (fun a b => keyB h1 a b = true) ann.2
  let dcr := sorted.foldl deconflictStepH (h1, [], [], [])
  let h2 := dcr.1
  let scheduled := dcr.2.1
  let bf := buildBlocksH h2 bounds.1 bounds.2 scheduled
  if scheduled.isEmpty then
    (h2, { blocks := Planner.templateBlocks ref,
           nudges := dcr.2.2.2 ++ [Planner.fallbackNudge],
           reschedules := [],
           focus_blocks := [] })
  else
    (h2, { blocks := bf.1,
           nudges := dcr.2.2.2,
           reschedules := dcr.2.2.1,
           focus_blocks := bf.2 })

end HeapModel

/-! ## Concrete instances used by the claim theorems -/

/-- Reference time 2025-01-15 12:00 (a plain Wednesday). -/
def refJan15 : Int := (parseISO "2025-01-15T12:00").getD 0

/-- Reference time on a different day, 2025-02-01 08:00. -/
def refFeb01 : Int := (parseISO "2025-02-01T08:00").getD 0

/-- The Standup event of testable property 3. -/
def standupEvent : Dict :=
  [("id", .str "ev-standup"), ("title", .str "Standup"),
   ("time", .str "2025-01-15T09:00"), ("priority", .str "high"),
   ("duration_min", .num 30), ("status", .str "scheduled")]

/-- The Walk event of testable property 3. -/
def walkEvent : Dict :=
  [("id", .str "ev-walk"), ("title", .str "Walk"),
   ("time", .str "2025-01-15T09:15"), ("priority", .str "normal"),
   ("duration_min", .num 60), ("status", .str "scheduled")]

/-- Cascade example, event A: low priority, 09:00, two hours. -/
def cascadeA : Dict :=
  [("id", .str "a"), ("title", .str "A"), ("time", .str "2025-01-15T09:00"),
   ("priority", .str "low"), ("duration_min", .num 120)]

/-- Cascade example, event B: high priority, 09:00, 30 minutes. -/
def cascadeB : Dict :=
  [("id", .str "b"), ("title", .str "B"), ("time", .str "2025-01-15T09:00"),
   ("priority", .str "high"), ("duration_min", .num 30)]

/-- Cascade example, event C: high priority, 09:20, 30 minutes. -/
def cascadeC : Dict :=
  [("id", .str "c"), ("title", .str "C"), ("time", .str "2025-01-15T09:20"),
   ("priority", .str "high"), ("duration_min", .num 30)]

/-- The voted article of testable property 9. -/
def rocketArticle : FeedbackLoop.Article :=
  ⟨some "example.com", "Huge Rocket Launch Today"⟩

/-- The audit records of testable property 7. -/
def deepWorkRecords : List Patterns.AuditRec :=
  [⟨some "Deep Work", some "done", some "09:00"⟩,
   ⟨some "Deep Work", some "done", some "09:30"⟩]

/-- A lat/lon-only GPS payload (no device id, no timestamp). -/
def gpsLatLonOnly : List (String × JVal) :=
  [("lat", .num 43.6), ("lon", .num (-116.2))]

/-- Two events sharing the title "Sync". -/
def syncEvents : List Dict :=
  [[("id", .str "e1"), ("title", .str "Sync")],
   [("id", .str "e2"), ("title", .str "Sync")]]

/-! ## Claim C5 — preference learning -/

/-- C5: given exactly the audit records
`{title "Deep Work", outcome done, planned_start 09:00}` and
`{title "Deep Work", outcome done, planned_start 09:30}`, `learn()`
buckets both as high (the lower-cased title contains "deep work"),
averages 540 and 570 minutes-since-midnight with integer division to 555,
and yields `by_priority.high.preferred_start = "09:15"`. -/
theorem c5_preference_learning :
    Patterns.learn_preferences deepWorkRecords = some [("high", "09:15")] := by
  rfl

/-! ## Claim C6 — budget math -/

/-- C6: cost is `tokens_in/1000 × 0.005 + tokens_out/1000 × 0.015`;
`record(2000, 1000)` stores `usd_estimate = 0.025` exactly, and after two
such calls `total_spend()` — the rounded all-time sum — is exactly `0.05`.
(The source computes in binary floating point; at these inputs every
intermediate double equals the decimal literal, so the exact-rational
model coincides.) -/
theorem round4_of_mul_eq_int (q : ℚ) (n : Int) (h : q * 10000 = (n : ℚ)) :
    Budget.round4 q = q := by
  unfold Budget.round4 Budget.roundHalfEvenInt
  rw [h]
  rw [Int.floor_intCast]
  simp only [sub_self]
  rw [if_pos (by norm_num)]
  have h10 : (10000 : ℚ) ≠ 0 := by norm_num
  field_simp
  linarith [h]

theorem c6_budget_math :
    Budget.estimate_cost 2000 1000 = (0.025 : ℚ) ∧
    (Budget.record 2000 1000 "" Budget.DEFAULT).1.history.map
        (fun e => e.usd_estimate) = [(0.025 : ℚ)] ∧
    Budget.total_spend
        (Budget.record 2000 1000 ""
          (Budget.record 2000 1000 "" Budget.DEFAULT).1).1 = (0.05 : ℚ) := by
  have hest : Budget.estimate_cost 2000 1000 = (0.025 : ℚ) := by
    norm_num [Budget.estimate_cost, Budget.PRICE_PER_1K_INPUT, Budget.PRICE_PER_1K_OUTPUT]
  have hr : Budget.round4 (0.025 : ℚ) = (0.025 : ℚ) :=
    round4_of_mul_eq_int _ 250 (by norm_num)
  refine ⟨hest, ?_, ?_⟩
  · show [Budget.round4 (Budget.estimate_cost 2000 1000)] = [(0.025 : ℚ)]
    rw [hest, hr]
  · show Budget.round4
        (0 + Budget.round4 (Budget.estimate_cost 2000 1000) +
          Budget.round4 (Budget.estimate_cost 2000 1000)) = (0.05 : ℚ)
    rw [hest, hr]
    have hsum : (0 : ℚ) + 0.025 + 0.025 = 0.05 := by norm_num
    rw [hsum]
    exact round4_of_mul_eq_int _ 500 (by norm_num)

/-! ## Claim C7 — feedback scoring -/

theorem score_addTo_self (m : FeedbackLoop.ScoreMap) (k : String) (d : Int) :
    FeedbackLoop.score (FeedbackLoop.addTo m k d) k = FeedbackLoop.score m k + d := by
  induction m with
  | nil => simp [FeedbackLoop.addTo, FeedbackLoop.score]
  | cons kv rest ih =>
    by_cases h : kv.1 = k <;>
      simp [FeedbackLoop.addTo, FeedbackLoop.score, h, ih]

theorem score_addTo_ne (m : FeedbackLoop.ScoreMap) (k k' : String) (d : Int)
    (h : k' ≠ k) :
    FeedbackLoop.score (FeedbackLoop.addTo m k d) k' = FeedbackLoop.score m k' := by
  induction m with
  | nil =>
    simp only [FeedbackLoop.addTo, FeedbackLoop.score]
    rw [if_neg (fun he => h he.symm)]
  | cons kv rest ih =>
    obtain ⟨k0, v0⟩ := kv
    simp only [FeedbackLoop.addTo]
    by_cases hk : k0 = k
    · rw [if_pos hk]
      have hne : k0 ≠ k' := fun he => h (he.symm.trans hk)
      simp only [FeedbackLoop.score]
      rw [if_neg hne, if_neg hne]
    · rw [if_neg hk]
      simp only [FeedbackLoop.score]
      by_cases hk2 : k0 = k'
      · rw [if_pos hk2, if_pos hk2]
      · rw [if_neg hk2, if_neg hk2]
        exact ih

/-- The keyword fold of `update_feedback` never touches the sources map. -/
theorem keywordFold_sources (ws : List String) (fb : FeedbackLoop.Feedback) (d : Int) :
    (ws.foldl
      (fun fb kw =>
        if kw.length > 3 then { fb with keywords := FeedbackLoop.addTo fb.keywords kw d }
        else fb) fb).sources = fb.sources := by
  induction ws generalizing fb with
  | nil => rfl
  | cons w ws ih =>
    by_cases h : w.length > 3 <;> simp [List.foldl, h, ih]

/-- The keyword fold leaves the score of any word of length ≤ 3 unchanged
(every scored word is longer than 3 characters). -/
theorem keywordFold_short (ws : List String) (fb : FeedbackLoop.Feedback) (d : Int)
    (w : String) (hw : w.length ≤ 3) :
    FeedbackLoop.score
      (ws.foldl
        (fun fb kw =>
          if kw.length > 3 then { fb with keywords := FeedbackLoop.addTo fb.keywords kw d }
          else fb) fb).keywords w = FeedbackLoop.score fb.keywords w := by
  induction ws generalizing fb with
  | nil => rfl
  | cons kw ws ih =>
    by_cases h : kw.length > 3
    · rw [List.foldl_cons, if_pos h, ih]
      exact score_addTo_ne _ _ _ _ (fun he => absurd (he ▸ hw) (by omega))
    · rw [List.foldl_cons, if_neg h, ih]

/-- C7: for every feedback profile, voting "up" on the article
`{source "example.com", title "Huge Rocket Launch Today"}` increments
`sources["example.com"]` and the keyword scores of "huge", "rocket",
"launch", "today" by exactly 1 each; a "down" vote decrements the same
entries by 1; and — for every article and vote — no word of length ≤ 3 is
ever scored. -/
theorem c7_feedback_scoring :
    (∀ fb : FeedbackLoop.Feedback,
      FeedbackLoop.score (FeedbackLoop.update_feedback fb rocketArticle "up").sources
          "example.com" = FeedbackLoop.score fb.sources "example.com" + 1 ∧
      ∀ w ∈ (["huge", "rocket", "launch", "today"] : List String),
        FeedbackLoop.score (FeedbackLoop.update_feedback fb rocketArticle "up").keywords
            w = FeedbackLoop.score fb.keywords w + 1) ∧
    (∀ fb : FeedbackLoop.Feedback,
      FeedbackLoop.score (FeedbackLoop.update_feedback fb rocketArticle "down").sources
          "example.com" = FeedbackLoop.score fb.sources "example.com" - 1 ∧
      ∀ w ∈ (["huge", "rocket", "launch", "today"] : List String),
        FeedbackLoop.score (FeedbackLoop.update_feedback fb rocketArticle "down").keywords
            w = FeedbackLoop.score fb.keywords w - 1) ∧
    (∀ (fb : FeedbackLoop.Feedback) (art : FeedbackLoop.Article) (vote : String)
        (w : String), w.length ≤ 3 →
      FeedbackLoop.score (FeedbackLoop.update_feedback fb art vote).keywords w =
        FeedbackLoop.score fb.keywords w) := by
  refine ⟨?_, ?_, ?_⟩
  · intro fb
    have hup : FeedbackLoop.update_feedback fb rocketArticle "up" =
        ⟨FeedbackLoop.addTo fb.sources "example.com" 1,
         FeedbackLoop.addTo
          (FeedbackLoop.addTo
            (FeedbackLoop.addTo
              (FeedbackLoop.addTo fb.keywords "huge" 1) "rocket" 1) "launch" 1)
          "today" 1⟩ := rfl
    rw [hup]
    refine ⟨score_addTo_self _ _ _, ?_⟩
    intro w hw
    fin_cases hw
    · rw [score_addTo_ne _ "today" "huge" _ (by decide),
        score_addTo_ne _ "launch" "huge" _ (by decide),
        score_addTo_ne _ "rocket" "huge" _ (by decide), score_addTo_self]
    · rw [score_addTo_ne _ "today" "rocket" _ (by decide),
        score_addTo_ne _ "launch" "rocket" _ (by decide), score_addTo_self,
        score_addTo_ne _ "huge" "rocket" _ (by decide)]
    · rw [score_addTo_ne _ "today" "launch" _ (by decide), score_addTo_self,
        score_addTo_ne _ "rocket" "launch" _ (by decide),
        score_addTo_ne _ "huge" "launch" _ (by decide)]
    · rw [score_addTo_self, score_addTo_ne _ "launch" "today" _ (by decide),
        score_addTo_ne _ "rocket" "today" _ (by decide),
        score_addTo_ne _ "huge" "today" _ (by decide)]
  · intro fb
    have hdn : FeedbackLoop.update_feedback fb rocketArticle "down" =
        ⟨FeedbackLoop.addTo fb.sources "example.com" (-1),
         FeedbackLoop.addTo
          (FeedbackLoop.addTo
            (FeedbackLoop.addTo
              (FeedbackLoop.addTo fb.keywords "huge" (-1)) "rocket" (-1)) "launch" (-1))
          "today" (-1)⟩ := rfl
    rw [hdn]
    refine ⟨by rw [score_addTo_self]; omega, ?_⟩
    intro w hw
    fin_cases hw
    · rw [score_addTo_ne _ "today" "huge" _ (by decide),
        score_addTo_ne _ "launch" "huge" _ (by decide),
        score_addTo_ne _ "rocket" "huge" _ (by decide), score_addTo_self]
      omega
    · rw [score_addTo_ne _ "today" "rocket" _ (by decide),
        score_addTo_ne _ "launch" "rocket" _ (by decide), score_addTo_self,
        score_addTo_ne _ "huge" "rocket" _ (by decide)]
      omega
    · rw [score_addTo_ne _ "today" "launch" _ (by decide), score_addTo_self,
        score_addTo_ne _ "rocket" "launch" _ (by decide),
        score_addTo_ne _ "huge" "launch" _ (by decide)]
      omega
    · rw [score_addTo_self, score_addTo_ne _ "launch" "today" _ (by decide),
        score_addTo_ne _ "rocket" "today" _ (by decide),
        score_addTo_ne _ "huge" "today" _ (by decide)]
      omega
  · intro fb art vote w hw
    obtain ⟨src, title⟩ := art
    cases src with
    | none =>
      show FeedbackLoop.score (List.foldl _ fb (pyWords (pyLower title))).keywords w = _
      exact keywordFold_short _ _ _ _ hw
    | some s =>
      by_cases hs : s ≠ ""
      · show FeedbackLoop.score
            (List.foldl _ (if s ≠ "" then _ else fb) (pyWords (pyLower title))).keywords
              w = _
        rw [if_pos hs]
        exact keywordFold_short _ _ _ _ hw
      · show FeedbackLoop.score
            (List.foldl _ (if s ≠ "" then _ else fb) (pyWords (pyLower title))).keywords
              w = _
        rw [if_neg hs]
        exact keywordFold_short _ _ _ _ hw

/-- Witness for C7 at the empty profile: "huge" gains a point, "the" is
never scored. -/
theorem c7_feedback_scoring_witness :
    FeedbackLoop.score
        (FeedbackLoop.update_feedback ⟨[], []⟩ rocketArticle "up").keywords "huge" =
      FeedbackLoop.score ([] : FeedbackLoop.ScoreMap) "huge" + 1 ∧
    FeedbackLoop.score
        (FeedbackLoop.update_feedback ⟨[], []⟩ rocketArticle "up").keywords "the" =
      FeedbackLoop.score ([] : FeedbackLoop.ScoreMap) "the" :=
  ⟨(c7_feedback_scoring.1 ⟨[], []⟩).2 "huge" (by decide),
   c7_feedback_scoring.2.2 ⟨[], []⟩ rocketArticle "up" "the" (by decide)⟩

/-! ## Claim C4 — update/delete key scoping on the calendar store -/

/-- The scan-and-break loop of `update_event` rewrites exactly the first
matching event, given that a match exists somewhere in the list. -/
theorem updateGo_found (k : String) (fields : Dict) :
    ∀ (l : List Dict) (x : Dict), x ∈ l → CalendarStore.matchIdOrTitle x k = true →
    ∃ pre e post,
      l = pre ++ e :: post ∧
      (∀ y ∈ pre, CalendarStore.matchIdOrTitle y k = false) ∧
      CalendarStore.matchIdOrTitle e k = true ∧
      CalendarStore.updateGo k fields l =
        (pre ++ CalendarStore.applyFields e fields :: post,
         some (CalendarStore.applyFields e fields)) := by
  intro l
  induction l with
  | nil => intro x hx; exact absurd hx (List.not_mem_nil x)
  | cons a l ih =>
    intro x hx hmx
    by_cases ha : CalendarStore.matchIdOrTitle a k = true
    · refine ⟨[], a, l, rfl, by simp, ha, ?_⟩
      simp [CalendarStore.updateGo, ha]
    · have hx' : x ∈ l := by
        rcases List.mem_cons.mp hx with rfl | h
        · exact absurd hmx ha
        · exact h
      obtain ⟨pre, e, post, hl, hpre, hme, hgo⟩ := ih x hx' hmx
      refine ⟨a :: pre, e, post, by rw [hl, List.cons_append], ?_, hme, ?_⟩
      · intro y hy
        rcases List.mem_cons.mp hy with rfl | h
        · exact Bool.eq_false_iff.mpr ha
        · exact hpre y h
      · simp [CalendarStore.updateGo, ha, hgo]

/-- A list with a member failing the filter predicate strictly shrinks. -/
theorem length_filter_lt_of_mem (l : List Dict) (q : Dict → Bool) (x : Dict)
    (hx : x ∈ l) (hqx : q x = false) : (l.filter q).length < l.length := by
  induction l with
  | nil => exact absurd hx (List.not_mem_nil x)
  | cons a l ih =>
    rcases List.mem_cons.mp hx with rfl | h
    · rw [List.filter_cons_of_neg (by simp [hqx])]
      exact Nat.lt_succ_of_le (List.length_filter_le q l)
    · by_cases ha : q a = true
      · rw [List.filter_cons_of_pos ha]
        exact Nat.succ_lt_succ (ih h)
      · rw [List.filter_cons_of_neg (by simpa using ha)]
        exact Nat.lt_succ_of_lt (ih h)

/-- C4: in every store holding at least two events with the same title,
`update` by that title rewrites exactly the first event matching by
identifier-or-exact-title in store order (earlier events are untouched
non-matches, later events are untouched) and returns the updated record,
while `delete` by the same key removes every matching event and reports
that something was removed. -/
theorem c4_update_delete_scoping (events : List Dict) (t : String) (fields : Dict)
    (h2 : 2 ≤ (events.filter fun e => valEqStr (Dict.get? e "title") t).length) :
    (∃ pre e post,
        events = pre ++ e :: post ∧
        (∀ y ∈ pre, CalendarStore.matchIdOrTitle y t = false) ∧
        CalendarStore.matchIdOrTitle e t = true ∧
        CalendarStore.update_event events t fields =
          (pre ++ CalendarStore.applyFields e fields :: post,
           some (CalendarStore.applyFields e fields))) ∧
    (CalendarStore.delete_event events t).1 =
      events.filter (fun e => ¬ CalendarStore.matchIdOrTitle e t) ∧
    (CalendarStore.delete_event events t).2 = true := by
  have hpos : 0 < (events.filter fun e => valEqStr (Dict.get? e "title") t).length := by
    omega
  obtain ⟨x, hx⟩ := List.exists_mem_of_length_pos hpos
  have hx' := List.mem_filter.mp hx
  have hmx : CalendarStore.matchIdOrTitle x t = true := by
    have ht : valEqStr (Dict.get? x "title") t = true := hx'.2
    unfold CalendarStore.matchIdOrTitle
    rw [ht, Bool.or_true]
  refine ⟨updateGo_found t fields events x hx'.1 hmx, rfl, ?_⟩
  have hlt := length_filter_lt_of_mem events
    (fun e => decide (¬ CalendarStore.matchIdOrTitle e t = true)) x hx'.1 (by simp [hmx])
  exact decide_eq_true (by omega)

/-- Witness for C4 on a two-event store with a duplicated title. -/
theorem c4_update_delete_scoping_witness :
    2 ≤ (syncEvents.filter fun e => valEqStr (Dict.get? e "title") "Sync").length ∧
    ((∃ pre e post,
        syncEvents = pre ++ e :: post ∧
        (∀ y ∈ pre, CalendarStore.matchIdOrTitle y "Sync" = false) ∧
        CalendarStore.matchIdOrTitle e "Sync" = true ∧
        CalendarStore.update_event syncEvents "Sync" [("priority", .str "high")] =
          (pre ++ CalendarStore.applyFields e [("priority", .str "high")] :: post,
           some (CalendarStore.applyFields e [("priority", .str "high")]))) ∧
      (CalendarStore.delete_event syncEvents "Sync").1 =
        syncEvents.filter (fun e => ¬ CalendarStore.matchIdOrTitle e "Sync") ∧
      (CalendarStore.delete_event syncEvents "Sync").2 = true) :=
  ⟨by decide, c4_update_delete_scoping syncEvents "Sync" [("priority", .str "high")]
    (by decide)⟩

/-! ## Claim C8 — GPS telemetry validation -/

theorem ensure_flow_gps (db : DataCollector.DB) (f : String) :
    (DataCollector.ensure_flow db f).gps = db.gps := by
  unfold DataCollector.ensure_flow
  split <;> rfl

/-- `_store_gps` on a payload with top-level numeric `lat`/`lon` and no
`coords` key appends exactly one row. -/
theorem store_gps_latlon (db : DataCollector.DB) (f : String)
    (p : List (String × JVal)) (a b : ℚ)
    (h1 : Dict.get? p "coords" = none) (h2 : Dict.get? p "lat" = some (.num a))
    (h3 : Dict.get? p "lon" = some (.num b)) :
    DataCollector.store_gps db f p =
      some ({ db with gps := db.gps ++ [⟨f, a, b⟩] }, db.gps.length + 1) := by
  simp [DataCollector.store_gps, h1, h2, h3, DataCollector.pyFloatVal]

/-- C8 (amended): the GPS validator checks only coordinates.  It rejects
every payload that has neither a `coords` entry nor both top-level `lat`
and `lon` keys; a `coords` sub-object (rather than a `"lat,lon"` string) is
rejected; and a payload carrying numeric top-level `lat` and `lon` is
accepted and persisted by `send_data` under the supplied flow identifier,
or under the auto-generated one when none is supplied.  Device id and
timestamp are never checked. -/
theorem c8_gps_validation :
    (∀ p : List (String × JVal), Dict.get? p "coords" = none →
      (Dict.get? p "lat" = none ∨ Dict.get? p "lon" = none) →
      ∃ msg, DataCollector.validate_gps (.obj p) = Except.error msg) ∧
    (∀ (p : List (String × JVal)) (d : List (String × JVal)),
      Dict.get? p "coords" = some (.obj d) →
      ∃ msg, DataCollector.validate_gps (.obj p) = Except.error msg) ∧
    (∀ (p : List (String × JVal)) (flow? : Option String) (genId : String)
        (db : DataCollector.DB) (a b : ℚ),
      Dict.get? p "coords" = none →
      Dict.get? p "lat" = some (.num a) →
      Dict.get? p "lon" = some (.num b) →
      DataCollector.send_data_gps (.obj p) flow? genId db =
        Except.ok
          ({ DataCollector.ensure_flow db (flow?.getD genId) with
              gps := db.gps ++ [⟨flow?.getD genId, a, b⟩] },
           ⟨"ok", "GPS", flow?.getD genId, db.gps.length + 1⟩)) := by
  refine ⟨?_, ?_, ?_⟩
  · intro p h1 h2
    rcases h2 with hl | hl
    · refine ⟨"GPS requires 'coords' or 'lat'+'lon'", ?_⟩
      simp [DataCollector.validate_gps, h1, hl]
    · cases hlat : Dict.get? p "lat" with
      | none =>
        refine ⟨"GPS requires 'coords' or 'lat'+'lon'", ?_⟩
        simp [DataCollector.validate_gps, h1, hlat]
      | some v =>
        refine ⟨"GPS requires 'coords' or 'lat'+'lon'", ?_⟩
        simp [DataCollector.validate_gps, h1, hlat, hl]
  · intro p d h
    refine ⟨"GPS.coords must be 'lat,lon' string", ?_⟩
    simp [DataCollector.validate_gps, h]
  · intro p flow? genId db a b h1 h2 h3
    have hv : DataCollector.validate_gps (.obj p) = Except.ok () := by
      simp [DataCollector.validate_gps, h1, h2, h3, DataCollector.pyFloatVal]
    have hst := store_gps_latlon (DataCollector.ensure_flow db (flow?.getD genId))
      (flow?.getD genId) p a b h1 h2 h3
    rw [ensure_flow_gps] at hst
    simp only [DataCollector.send_data_gps, hv, hst]

/-- Counterexample to C8 as stated: the payload `{lat: 43.6, lon: -116.2}`
carries no device id and no timestamp yet passes `_validate_gps`. -/
theorem c8_counterexample :
    Dict.get? gpsLatLonOnly "device_id" = none ∧
    Dict.get? gpsLatLonOnly "ts" = none ∧
    Dict.get? gpsLatLonOnly "timestamp" = none ∧
    DataCollector.validate_gps (.obj gpsLatLonOnly) = Except.ok () :=
  ⟨rfl, rfl, rfl, rfl⟩

/-- Witness for C8: a device-id-only payload is rejected, and the lat/lon
payload is stored under the generated flow identifier. -/
theorem c8_gps_validation_witness :
    (∃ msg, DataCollector.validate_gps (.obj [("device_id", .str "d1")]) =
      Except.error msg) ∧
    DataCollector.send_data_gps (.obj gpsLatLonOnly) none "flow_generated" ⟨[], []⟩ =
      Except.ok
        (⟨["flow_generated"], [⟨"flow_generated", 43.6, -116.2⟩]⟩,
         ⟨"ok", "GPS", "flow_generated", 1⟩) :=
  ⟨c8_gps_validation.1 [("device_id", .str "d1")] rfl (Or.inl rfl),
   c8_gps_validation.2.2 gpsLatLonOnly none "flow_generated" ⟨[], []⟩ 43.6 (-116.2)
     rfl rfl rfl⟩

/-! ## Claim C9 — nudge timing -/

/-- Every per-block entry is a prep, mid or wrap entry (only the trailing
day-wrap append produces type `day_wrap`). -/
theorem blockNudges_types (cfg : Notifications.Config) (ref : Int)
    (blk : Notifications.NBlock) :
    ∀ e ∈ Notifications.blockNudges cfg ref blk,
      e.type = "prep" ∨ e.type = "mid" ∨ e.type = "wrap" := by
  intro e he
  unfold Notifications.blockNudges at he
  split at he
  · simp only [List.mem_append] at he
    rcases he with (he | he) | he <;> split_ifs at he <;>
      simp only [List.mem_singleton, List.not_mem_nil] at he <;>
      first
        | exact absurd he (by exact fun h => h)
        | (subst he; simp)
  · exact absurd he (List.not_mem_nil e)

/-- Membership in the per-block fold comes from the accumulator or from
one block's emissions. -/
theorem mem_foldl_append {α β : Type} (g : β → List α) :
    ∀ (l : List β) (acc : List α) (x : α),
      x ∈ l.foldl (fun a b => a ++ g b) acc → x ∈ acc ∨ ∃ b ∈ l, x ∈ g b := by
  intro l
  induction l with
  | nil => intro acc x hx; exact Or.inl hx
  | cons b l ih =>
    intro acc x hx
    rcases ih (acc ++ g b) x hx with h | ⟨b', hb', hx'⟩
    · rcases List.mem_append.mp h with h | h
      · exact Or.inl h
      · exact Or.inr ⟨b, List.mem_cons_self b l, h⟩
    · exact Or.inr ⟨b', List.mem_cons_of_mem b hb', hx'⟩

/-- In a list sorted by timestamp, an entry with a strictly smaller
timestamp sits at a strictly smaller index. -/
theorem sorted_get_lt (l : List Notifications.Entry)
    (hs : List.Sorted (fun a b : Notifications.Entry => a.atM ≤ b.atM) l)
    (i j : Nat) (e f : Notifications.Entry)
    (hi : l.get? i = some e) (hj : l.get? j = some f) (hlt : e.atM < f.atM) :
    i < j := by
  by_contra hc
  push_neg at hc
  have hjlen : j < l.length := (List.get?_eq_some.mp hj).1
  have hilen : i < l.length := (List.get?_eq_some.mp hi).1
  rcases Nat.lt_or_ge j i with hji | hij
  · have := (List.pairwise_iff_get.mp hs) ⟨j, hjlen⟩ ⟨i, hilen⟩ hji
    rw [(List.get?_eq_some.mp hj).2, (List.get?_eq_some.mp hi).2] at this
    omega
  · have : i = j := by omega
    subst this
    rw [hi] at hj
    cases hj
    omega

/-- C9: for every plan whose last block is a high-priority event block
14:00–15:00, the timestamped schedule (default configuration) contains a
prep entry at 13:50 (minute 830 of the reference day) and a wrap entry at
14:58 (minute 898), the whole schedule is sorted ascending by timestamp,
and both entries are positioned before every day-wrap entry (which sits at
15:00, minute 900). -/
theorem c9_nudge_timing (bs : List Notifications.NBlock) (title : String) (ref : Int)
    (sched : List Notifications.Entry)
    (hs : sched = Notifications.build_nudge_schedule
      (bs ++ [⟨"14:00", "15:00", title, "high", "event"⟩]) ref) :
    (∃ m, (⟨1440 * dateOf ref + 830, "prep", m⟩ : Notifications.Entry) ∈ sched) ∧
    (∃ m, (⟨1440 * dateOf ref + 898, "wrap", m⟩ : Notifications.Entry) ∈ sched) ∧
    (∃ m, (⟨1440 * dateOf ref + 900, "day_wrap", m⟩ : Notifications.Entry) ∈ sched) ∧
    List.Sorted (fun a b : Notifications.Entry => a.atM ≤ b.atM) sched ∧
    (∀ j f, sched.get? j = some f → f.type = "day_wrap" →
      f.atM = 1440 * dateOf ref + 900 ∧
      (∃ i m, i < j ∧
        sched.get? i = some ⟨1440 * dateOf ref + 830, "prep", m⟩) ∧
      (∃ i m, i < j ∧
        sched.get? i = some ⟨1440 * dateOf ref + 898, "wrap", m⟩)) := by
  subst hs
  have hprep_at : Int.fdiv (dayBase ref + 3600 * 14 + 60 * 0 - 60 * 10) 60 =
      1440 * dateOf ref + 830 := by
    unfold dayBase dateOf
    rw [Int.fdiv_eq_ediv _ (by norm_num : (0 : Int) ≤ 86400),
      Int.fdiv_eq_ediv _ (by norm_num : (0 : Int) ≤ 60)]
    omega
  have hwrap_at : Int.fdiv (dayBase ref + 3600 * 15 + 60 * 0 - 60 * 2) 60 =
      1440 * dateOf ref + 898 := by
    unfold dayBase dateOf
    rw [Int.fdiv_eq_ediv _ (by norm_num : (0 : Int) ≤ 86400),
      Int.fdiv_eq_ediv _ (by norm_num : (0 : Int) ≤ 60)]
    omega
  have hdw_at : Int.fdiv (dayBase ref + 3600 * 15 + 60 * 0) 60 =
      1440 * dateOf ref + 900 := by
    unfold dayBase dateOf
    rw [Int.fdiv_eq_ediv _ (by norm_num : (0 : Int) ≤ 86400),
      Int.fdiv_eq_ediv _ (by norm_num : (0 : Int) ≤ 60)]
    omega
  have hL : Notifications.build_nudge_schedule
      (bs ++ [(⟨"14:00", "15:00", title, "high", "event"⟩ : Notifications.NBlock)]) ref =
      List.insertionSort (fun a b => a.atM ≤ b.atM)
        ((List.foldl
            (fun acc b => acc ++ Notifications.blockNudges Notifications.CONFIG ref b) []
            bs ++
          Notifications.blockNudges Notifications.CONFIG ref
            ⟨"14:00", "15:00", title, "high", "event"⟩) ++
         [⟨Int.fdiv (dayBase ref + 3600 * 15 + 60 * 0) 60, "day_wrap",
           Notifications.dayWrapMsg (dayBase ref + 3600 * 15 + 60 * 0)⟩]) := by
    simp only [Notifications.build_nudge_schedule]
    rw [if_neg (by decide), List.foldl_append,
      if_pos (And.intro (by decide) (by simp)), List.getLast?_concat]
    rfl
  rw [hL, hdw_at]
  have hbn : ∃ m1 m2, Notifications.blockNudges Notifications.CONFIG ref
      (⟨"14:00", "15:00", title, "high", "event"⟩ : Notifications.NBlock) =
      [⟨Int.fdiv (dayBase ref + 3600 * 14 + 60 * 0 - 60 * 10) 60, "prep", m1⟩,
       ⟨Int.fdiv (dayBase ref + 3600 * 15 + 60 * 0 - 60 * 2) 60, "wrap", m2⟩] :=
    ⟨_, _, rfl⟩
  obtain ⟨m1, m2, hbn⟩ := hbn
  rw [hprep_at, hwrap_at] at hbn
  haveI : IsTotal Notifications.Entry (fun a b => a.atM ≤ b.atM) :=
    ⟨fun a b => le_total a.atM b.atM⟩
  haveI : IsTrans Notifications.Entry (fun a b => a.atM ≤ b.atM) :=
    ⟨fun a b c h1 h2 => le_trans h1 h2⟩
  have hperm := List.perm_insertionSort
    (fun a b : Notifications.Entry => a.atM ≤ b.atM)
    ((List.foldl
        (fun acc b => acc ++ Notifications.blockNudges Notifications.CONFIG ref b) []
        bs ++
      Notifications.blockNudges Notifications.CONFIG ref
        ⟨"14:00", "15:00", title, "high", "event"⟩) ++
     [⟨1440 * dateOf ref + 900, "day_wrap",
       Notifications.dayWrapMsg (dayBase ref + 3600 * 15 + 60 * 0)⟩])
  have hsorted := List.sorted_insertionSort
    (fun a b : Notifications.Entry => a.atM ≤ b.atM)
    ((List.foldl
        (fun acc b => acc ++ Notifications.blockNudges Notifications.CONFIG ref b) []
        bs ++
      Notifications.blockNudges Notifications.CONFIG ref
        ⟨"14:00", "15:00", title, "high", "event"⟩) ++
     [⟨1440 * dateOf ref + 900, "day_wrap",
       Notifications.dayWrapMsg (dayBase ref + 3600 * 15 + 60 * 0)⟩])
  have hpm : (⟨1440 * dateOf ref + 830, "prep", m1⟩ : Notifications.Entry) ∈
      (List.foldl
        (fun acc b => acc ++ Notifications.blockNudges Notifications.CONFIG ref b) []
        bs ++
      Notifications.blockNudges Notifications.CONFIG ref
        ⟨"14:00", "15:00", title, "high", "event"⟩) ++
      [⟨1440 * dateOf ref + 900, "day_wrap",
        Notifications.dayWrapMsg (dayBase ref + 3600 * 15 + 60 * 0)⟩] := by
    apply List.mem_append_left
    apply List.mem_append_right
    rw [hbn]
    exact List.mem_cons_self _ _
  have hwm : (⟨1440 * dateOf ref + 898, "wrap", m2⟩ : Notifications.Entry) ∈
      (List.foldl
        (fun acc b => acc ++ Notifications.blockNudges Notifications.CONFIG ref b) []
        bs ++
      Notifications.blockNudges Notifications.CONFIG ref
        ⟨"14:00", "15:00", title, "high", "event"⟩) ++
      [⟨1440 * dateOf ref + 900, "day_wrap",
        Notifications.dayWrapMsg (dayBase ref + 3600 * 15 + 60 * 0)⟩] := by
    apply List.mem_append_left
    apply List.mem_append_right
    rw [hbn]
    exact List.mem_cons_of_mem _ (List.mem_cons_self _ _)
  have hdm : (⟨1440 * dateOf ref + 900, "day_wrap",
      Notifications.dayWrapMsg (dayBase ref + 3600 * 15 + 60 * 0)⟩ :
        Notifications.Entry) ∈
      (List.foldl
        (fun acc b => acc ++ Notifications.blockNudges Notifications.CONFIG ref b) []
        bs ++
      Notifications.blockNudges Notifications.CONFIG ref
        ⟨"14:00", "15:00", title, "high", "event"⟩) ++
      [⟨1440 * dateOf ref + 900, "day_wrap",
        Notifications.dayWrapMsg (dayBase ref + 3600 * 15 + 60 * 0)⟩] :=
    List.mem_append_right _ (List.mem_cons_self _ _)
  have htype : ∀ e ∈
      (List.foldl
        (fun acc b => acc ++ Notifications.blockNudges Notifications.CONFIG ref b) []
        bs ++
      Notifications.blockNudges Notifications.CONFIG ref
        ⟨"14:00", "15:00", title, "high", "event"⟩) ++
      [⟨1440 * dateOf ref + 900, "day_wrap",
        Notifications.dayWrapMsg (dayBase ref + 3600 * 15 + 60 * 0)⟩],
      e.type = "day_wrap" → e.atM = 1440 * dateOf ref + 900 := by
    intro e he ht
    rcases List.mem_append.mp he with he | he
    · rcases List.mem_append.mp he with he | he
      · rcases mem_foldl_append _ bs [] e he with h0 | ⟨b, _, hgb⟩
        · exact absurd h0 (List.not_mem_nil e)
        · rcases blockNudges_types _ _ _ e hgb with h | h | h <;> rw [ht] at h <;>
            exact absurd h (by decide)
      · rcases blockNudges_types _ _ _ e he with h | h | h <;> rw [ht] at h <;>
          exact absurd h (by decide)
    · rw [List.mem_singleton.mp he]
  refine ⟨⟨m1, hperm.mem_iff.mpr hpm⟩, ⟨m2, hperm.mem_iff.mpr hwm⟩,
    ⟨Notifications.dayWrapMsg (dayBase ref + 3600 * 15 + 60 * 0),
      hperm.mem_iff.mpr hdm⟩, hsorted, ?_⟩
  intro j f hj hf
  have hfL := hperm.mem_iff.mp (List.get?_mem hj)
  have hfa : f.atM = 1440 * dateOf ref + 900 := htype f hfL hf
  refine ⟨hfa, ?_, ?_⟩
  · obtain ⟨i, hi⟩ := List.get?_of_mem (hperm.mem_iff.mpr hpm)
    refine ⟨i, m1, sorted_get_lt _ hsorted i j _ f hi hj ?_, hi⟩
    rw [hfa]
    show (1440 * dateOf ref + 830 : Int) < 1440 * dateOf ref + 900
    omega
  · obtain ⟨i, hi⟩ := List.get?_of_mem (hperm.mem_iff.mpr hwm)
    refine ⟨i, m2, sorted_get_lt _ hsorted i j _ f hi hj ?_, hi⟩
    rw [hfa]
    show (1440 * dateOf ref + 898 : Int) < 1440 * dateOf ref + 900
    omega

/-- Witness for C9: a one-block plan (Board Review 14:00–15:00, high). -/
theorem c9_nudge_timing_witness :
    (∃ m, (⟨1440 * dateOf refJan15 + 830, "prep", m⟩ : Notifications.Entry) ∈
      Notifications.build_nudge_schedule
        [⟨"14:00", "15:00", "Board Review", "high", "event"⟩] refJan15) ∧
    (∃ m, (⟨1440 * dateOf refJan15 + 898, "wrap", m⟩ : Notifications.Entry) ∈
      Notifications.build_nudge_schedule
        [⟨"14:00", "15:00", "Board Review", "high", "event"⟩] refJan15) ∧
    (∃ m, (⟨1440 * dateOf refJan15 + 900, "day_wrap", m⟩ : Notifications.Entry) ∈
      Notifications.build_nudge_schedule
        [⟨"14:00", "15:00", "Board Review", "high", "event"⟩] refJan15) ∧
    List.Sorted (fun a b : Notifications.Entry => a.atM ≤ b.atM)
      (Notifications.build_nudge_schedule
        [⟨"14:00", "15:00", "Board Review", "high", "event"⟩] refJan15) ∧
    (∀ j f,
      (Notifications.build_nudge_schedule
        [⟨"14:00", "15:00", "Board Review", "high", "event"⟩] refJan15).get? j =
          some f →
      f.type = "day_wrap" →
      f.atM = 1440 * dateOf refJan15 + 900 ∧
      (∃ i m, i < j ∧
        (Notifications.build_nudge_schedule
          [⟨"14:00", "15:00", "Board Review", "high", "event"⟩] refJan15).get? i =
            some ⟨1440 * dateOf refJan15 + 830, "prep", m⟩) ∧
      (∃ i m, i < j ∧
        (Notifications.build_nudge_schedule
          [⟨"14:00", "15:00", "Board Review", "high", "event"⟩] refJan15).get? i =
            some ⟨1440 * dateOf refJan15 + 898, "wrap", m⟩)) :=
  c9_nudge_timing [] "Board Review" refJan15
    (Notifications.build_nudge_schedule
      [⟨"14:00", "15:00", "Board Review", "high", "event"⟩] refJan15) rfl

/-! ## Claim C1 — block ordering and the locality of the conflict resolver -/

/-- Counterexample to C1 as stated: three conflicting events (A low
09:00+120min, B high 09:00+30min, C high 09:20+30min) make the resolver
displace the already-moved A past C while C itself still overlaps B, so the
emitted blocks contain B 09:00–09:30 followed by C 09:20–09:50 — not
time-ordered and overlapping. -/
theorem c1_counterexample :
    ¬ List.Chain' (fun b b' : Planner.Block => b.stop ≤ b'.start)
      (Planner.plan_day [cascadeA, cascadeB, cascadeC] refJan15).blocks := by
  intro h
  have h12 := List.chain'_iff_get.mp h 1 (by decide)
  exact absurd h12 (by decide)

/-- Every annotated event has a duration of at least 5 minutes and an end
time start + 60·duration seconds. -/
theorem filterTodays_wf (events : List Dict) (ref : Int) :
    ∀ e ∈ Planner.filterTodays events ref,
      5 ≤ e.dur ∧ e.stop = e.start + 60 * e.dur := by
  intro e he
  obtain ⟨a, _, hfa⟩ := List.mem_filterMap.mp he
  have hd : 5 ≤ Planner.get_duration a := by
    unfold Planner.get_duration
    split
    · omega
    · omega
  cases hp : parseISO (Planner.getStrD a "time" "") with
  | none => rw [hp] at hfa; cases hfa
  | some t =>
    rw [hp] at hfa
    have hfa' : (if dateOf t ≠ dateOf ref then none
        else some (⟨a, t, Planner.get_duration a, t + 60 * Planner.get_duration a,
          Planner.priority_weight (Dict.get? a "priority")⟩ : Planner.PEvent)) =
        some e := hfa
    by_cases hdt : dateOf t ≠ dateOf ref
    · rw [if_pos hdt] at hfa'
      cases hfa'
    · rw [if_neg hdt] at hfa'
      cases hfa'
      exact ⟨hd, rfl⟩

/-- The scheduled-sequence component of one de-conflict step. -/
theorem deconflictStep_sched (sched : List Planner.PEvent)
    (res : List Planner.Resched) (nudges : List String) (y : Planner.PEvent) :
    (Planner.deconflictStep (sched, res, nudges) y).1 =
      match sched.getLast? with
      | none => sched ++ [y]
      | some last =>
        if last.stop ≤ y.start then sched ++ [y]
        else if y.pwt < last.pwt then
          sched.dropLast ++
            [y, { last with start := max y.stop last.start,
                            stop := max y.stop last.start + 60 * last.dur }]
        else sched ++ [{ y with start := last.stop,
                                stop := last.stop + 60 * y.dur }] := by
  unfold Planner.deconflictStep
  cases hgl : sched.getLast? with
  | none => simp [hgl]
  | some last =>
    simp only [hgl]
    split_ifs <;> simp

theorem deconflict_pair (x y : Planner.PEvent)
    (hx : 5 ≤ x.dur ∧ x.stop = x.start + 60 * x.dur)
    (hy : 5 ≤ y.dur ∧ y.stop = y.start + 60 * y.dur) :
    List.Chain' (fun a b : Planner.PEvent => a.stop ≤ b.start)
      (Planner.deconflict [x, y]).1 ∧
    ∀ e ∈ (Planner.deconflict [x, y]).1,
      5 ≤ e.dur ∧ e.stop = e.start + 60 * e.dur := by
  have hsched : (Planner.deconflict [x, y]).1 =
      if x.stop ≤ y.start then [x, y]
      else if y.pwt < x.pwt then
        [y, { x with start := max y.stop x.start,
                     stop := max y.stop x.start + 60 * x.dur }]
      else [x, { y with start := x.stop, stop := x.stop + 60 * y.dur }] := by
    rw [show Planner.deconflict [x, y] = Planner.deconflictStep ([x], [], []) y from rfl,
      deconflictStep_sched]
    simp
  rw [hsched]
  split_ifs with h1 h2
  · constructor
    · exact List.chain'_pair.mpr h1
    · intro e he
      rcases List.mem_cons.mp he with rfl | he
      · exact hx
      · rcases List.mem_cons.mp he with rfl | he
        · exact hy
        · exact absurd he (List.not_mem_nil e)
  · constructor
    · exact List.chain'_pair.mpr (le_max_left _ _)
    · intro e he
      rcases List.mem_cons.mp he with rfl | he
      · exact hy
      · rcases List.mem_cons.mp he with rfl | he
        · exact ⟨hx.1, rfl⟩
        · exact absurd he (List.not_mem_nil e)
  · constructor
    · exact List.chain'_pair.mpr le_rfl
    · intro e he
      rcases List.mem_cons.mp he with rfl | he
      · exact hx
      · rcases List.mem_cons.mp he with rfl | he
        · exact ⟨hy.1, rfl⟩
        · exact absurd he (List.not_mem_nil e)

theorem deconflict_nil_sched : (Planner.deconflict []).1 = [] := rfl

theorem deconflict_single_sched (x : Planner.PEvent) :
    (Planner.deconflict [x]).1 = [x] := rfl

theorem mem_of_getLast_opt {α : Type} {l : List α} {x : α}
    (h : x ∈ l.getLast?) : x ∈ l := by
  obtain ⟨hne, rfl⟩ := List.mem_getLast?_eq_getLast h
  exact List.getLast_mem hne

/-- `_add_gap` keeps the emitted blocks chained and below the cursor, and
moves the cursor to `max cursor until`. -/
theorem addGap_spec (s : Planner.BuildSt) (untl : Int) (prio : String)
    (hc : List.Chain' (fun a b : Planner.Block => a.stop ≤ b.start) s.blocks)
    (hb : ∀ b ∈ s.blocks, b.stop ≤ s.cursor) :
    List.Chain' (fun a b : Planner.Block => a.stop ≤ b.start)
      (Planner.addGap s untl prio).blocks ∧
    (∀ b ∈ (Planner.addGap s untl prio).blocks,
      b.stop ≤ (Planner.addGap s untl prio).cursor) ∧
    (Planner.addGap s untl prio).cursor = max s.cursor untl := by
  unfold Planner.addGap
  split_ifs with h1 h2
  · exact ⟨hc, hb, by omega⟩
  · refine ⟨?_, ?_, ?_⟩
    · refine List.Chain'.append hc (List.chain'_singleton _) ?_
      intro b hbl y hy
      rw [Option.mem_def, List.head?_cons] at hy
      injection hy with hy
      subst hy
      exact hb b (mem_of_getLast_opt hbl)
    · intro b hbm
      rcases List.mem_append.mp hbm with hbm | hbm
      · have := hb b hbm
        show b.stop ≤ untl
        omega
      · rw [List.mem_singleton.mp hbm]
        exact le_rfl
    · show untl = max s.cursor untl
      omega
  · refine ⟨hc, ?_, ?_⟩
    · intro b hbm
      have := hb b hbm
      show b.stop ≤ untl
      omega
    · show untl = max s.cursor untl
      omega

/-- The block-building walk preserves the block chain: given a chained,
positive-duration scheduled sequence and a cursor not past the next
event's clamped start, all emitted blocks stay chained and end at or
before the final cursor. -/
theorem buildLoop_spec (ds de : Int) (sched : List Planner.PEvent) :
    ∀ s : Planner.BuildSt,
      List.Chain' (fun a b : Planner.PEvent => a.stop ≤ b.start) sched →
      (∀ e ∈ sched, 5 ≤ e.dur ∧ e.stop = e.start + 60 * e.dur) →
      List.Chain' (fun a b : Planner.Block => a.stop ≤ b.start) s.blocks →
      (∀ b ∈ s.blocks, b.stop ≤ s.cursor) →
      (∀ e r, sched = e :: r → s.cursor ≤ max e.start ds) →
      List.Chain' (fun a b : Planner.Block => a.stop ≤ b.start)
        (Planner.buildLoop ds de s sched).blocks ∧
      (∀ b ∈ (Planner.buildLoop ds de s sched).blocks,
        b.stop ≤ (Planner.buildLoop ds de s sched).cursor) := by
  induction sched with
  | nil => intro s _ _ hc hb _; exact ⟨hc, hb⟩
  | cons e rest ih =>
    intro s hch hwf hc hb hnext
    obtain ⟨hgc, hgb, hgcur⟩ := addGap_spec s (max e.start ds) "normal" hc hb
    have hcur1 : (Planner.addGap s (max e.start ds) "normal").cursor = max e.start ds := by
      have := hnext e rest rfl
      omega
    have hepos : e.start < e.stop := by
      have := (hwf e (List.mem_cons_self e rest)).1
      have := (hwf e (List.mem_cons_self e rest)).2
      omega
    have hrest_rel : ∀ f r', rest = f :: r' → e.stop ≤ f.start := by
      intro f r' hr
      subst hr
      exact (List.chain'_cons.mp hch).1
    show List.Chain' _ (Planner.buildLoop ds de s (e :: rest)).blocks ∧ _
    rw [Planner.buildLoop]
    split_ifs with hee
    · -- event block emitted
      refine ih _ (List.Chain'.tail hch) (fun f hf => hwf f (List.mem_cons_of_mem e hf))
        ?_ ?_ ?_
      · refine List.Chain'.append hgc (List.chain'_singleton _) ?_
        intro b hbl y hy
        rw [Option.mem_def, List.head?_cons] at hy
        injection hy with hy
        subst hy
        have := hgb b (mem_of_getLast_opt hbl)
        show b.stop ≤ max e.start ds
        omega
      · intro b hbm
        rcases List.mem_append.mp hbm with hbm | hbm
        · have := hgb b hbm
          show b.stop ≤ min e.stop de
          omega
        · rw [List.mem_singleton.mp hbm]
          exact le_rfl
      · intro f r' hr
        have hef := hrest_rel f r' hr
        show min e.stop de ≤ max f.start ds
        omega
    · -- event block skipped (empty after clamping)
      refine ih _ (List.Chain'.tail hch) (fun f hf => hwf f (List.mem_cons_of_mem e hf))
        hgc hgb ?_
      intro f r' hr
      have hef := hrest_rel f r' hr
      omega

/-- The full block-building pass emits a time-ordered, non-overlapping
block list whenever the scheduled sequence is chained with positive
durations. -/
theorem buildBlocks_chain (ds de : Int) (sched : List Planner.PEvent)
    (hch : List.Chain' (fun a b : Planner.PEvent => a.stop ≤ b.start) sched)
    (hwf : ∀ e ∈ sched, 5 ≤ e.dur ∧ e.stop = e.start + 60 * e.dur) :
    List.Chain' (fun a b : Planner.Block => a.stop ≤ b.start)
      (Planner.buildBlocks ds de sched).1 := by
  obtain ⟨hc, hb⟩ := buildLoop_spec ds de sched ⟨ds, [], []⟩ hch hwf
    List.chain'_nil (by intro b hbm; exact absurd hbm (List.not_mem_nil b))
    (fun e r _ => le_max_right _ _)
  simp only [Planner.buildBlocks]
  split_ifs with ht
  · refine List.Chain'.append hc (List.chain'_singleton _) ?_
    intro b hbl y hy
    rw [Option.mem_def, List.head?_cons] at hy
    injection hy with hy
    subst hy
    exact hb b (mem_of_getLast_opt hbl)
  · exact hc

/-- The empty-day template is itself time-ordered and non-overlapping. -/
theorem templateBlocks_chain (ref : Int) :
    List.Chain' (fun a b : Planner.Block => a.stop ≤ b.start)
      (Planner.templateBlocks ref) := by
  unfold Planner.templateBlocks
  refine List.chain'_cons.mpr ⟨?_, List.chain'_cons.mpr ⟨?_,
    List.chain'_cons.mpr ⟨?_, List.chain'_singleton _⟩⟩⟩
  · show dayBase ref + 11 * 3600 ≤ dayBase ref + 11 * 3600
    omega
  · show dayBase ref + 12 * 3600 ≤ dayBase ref + 13 * 3600
    omega
  · show dayBase ref + 15 * 3600 ≤ dayBase ref + 15 * 3600 + 1800
    omega

/-- C1 (amended): the blocks are time-ordered and mutually non-overlapping
(each block's start at or after the previous block's end) whenever at most
two input events fall on the reference date.  With three or more same-day
events the single-pass resolver can emit overlapping, out-of-order blocks
(see the counterexample). -/
theorem c1_blocks_ordered_of_le_two (events : List Dict) (ref : Int)
    (h : (Planner.filterTodays events ref).length ≤ 2) :
    List.Chain' (fun b b' : Planner.Block => b.stop ≤ b'.start)
      (Planner.plan_day events ref).blocks := by
  have hwf0 := filterTodays_wf events ref
  have hperm := List.perm_insertionSort Planner.keyLe (Planner.filterTodays events ref)
  have hlen : (List.insertionSort Planner.keyLe
      (Planner.filterTodays events ref)).length ≤ 2 := by
    rw [hperm.length_eq]
    exact h
  have hwfs : ∀ e ∈ List.insertionSort Planner.keyLe (Planner.filterTodays events ref),
      5 ≤ e.dur ∧ e.stop = e.start + 60 * e.dur :=
    fun e he => hwf0 e (hperm.mem_iff.mp he)
  have hdc : List.Chain' (fun a b : Planner.PEvent => a.stop ≤ b.start)
      (Planner.deconflict (List.insertionSort Planner.keyLe
        (Planner.filterTodays events ref))).1 ∧
      ∀ e ∈ (Planner.deconflict (List.insertionSort Planner.keyLe
        (Planner.filterTodays events ref))).1,
        5 ≤ e.dur ∧ e.stop = e.start + 60 * e.dur := by
    generalize hgen : List.insertionSort Planner.keyLe
      (Planner.filterTodays events ref) = s at hlen hwfs
    match s with
    | [] =>
      exact ⟨List.chain'_nil, fun e he => absurd he (List.not_mem_nil e)⟩
    | [a] =>
      refine ⟨List.chain'_singleton _, ?_⟩
      intro e he
      rw [deconflict_single_sched] at he
      rw [List.mem_singleton.mp he]
      exact hwfs a (List.mem_singleton_self a)
    | [a, b] =>
      exact deconflict_pair a b (hwfs a (by simp)) (hwfs b (by simp))
    | a :: b :: c :: t =>
      exfalso
      simp only [List.length_cons] at hlen
      omega
  simp only [Planner.plan_day]
  split_ifs with hemp
  · exact templateBlocks_chain ref
  · exact buildBlocks_chain _ _ _ hdc.1 hdc.2

/-- Witness for C1 (amended): the two-event Standup/Walk day. -/
theorem c1_blocks_ordered_of_le_two_witness :
    (Planner.filterTodays [standupEvent, walkEvent] refJan15).length ≤ 2 ∧
    List.Chain' (fun b b' : Planner.Block => b.stop ≤ b'.start)
      (Planner.plan_day [standupEvent, walkEvent] refJan15).blocks :=
  ⟨by decide, c1_blocks_ordered_of_le_two [standupEvent, walkEvent] refJan15 (by decide)⟩

/-! ## Claim C10 — `plan_day` never mutates its input

On the heap model: the final heap extends the initial one, so every cell
the caller's event references point at is byte-for-byte unchanged — all
planner writes hit cells freshly allocated by the `dict(e)` copies. -/

theorem set_append_of_le {α : Type} (l1 l2 : List α) (r : Nat) (d : α)
    (hr : l1.length ≤ r) :
    (l1 ++ l2).set r d = l1 ++ l2.set (r - l1.length) d := by
  induction l1 generalizing r with
  | nil => simp
  | cons a l1 ih =>
    cases r with
    | zero => exact absurd hr (by simp)
    | succ r =>
      show a :: (l1 ++ l2).set r d = a :: (l1 ++ l2.set (r + 1 - (l1.length + 1)) d)
      have harith : r + 1 - (l1.length + 1) = r - l1.length := by omega
      rw [harith, ih r (Nat.le_of_succ_le_succ hr)]

/-- A write at an index past a heap prefix leaves the prefix intact. -/
theorem write_ext_of (h0 hp : HeapModel.Heap) (r : HeapModel.Ref) (k : String)
    (v : HeapModel.HV) (hx : ∃ t, hp = h0 ++ t) (hr : h0.length ≤ r) :
    ∃ t, HeapModel.Heap.write hp r k v = h0 ++ t := by
  obtain ⟨t, ht⟩ := hx
  subst ht
  unfold HeapModel.Heap.write
  rw [set_append_of_le _ _ _ _ hr]
  exact ⟨_, rfl⟩

/-- One annotation step only allocates and writes to the fresh copy. -/
theorem annotateOne_ext (ref : Int) (h0 : HeapModel.Heap)
    (acc : HeapModel.Heap × List HeapModel.Ref) (r : HeapModel.Ref)
    (hacc : ∃ t, acc.1 = h0 ++ t) :
    ∃ t, (HeapModel.annotateOne ref acc r).1 = h0 ++ t := by
  obtain ⟨t, ht⟩ := hacc
  unfold HeapModel.annotateOne
  cases hp : parseISO (HeapModel.hGetStrD acc.1 r "time" "") with
  | none =>
    simp only [hp]
    exact ⟨t, ht⟩
  | some tv =>
    simp only [hp]
    by_cases hd : dateOf tv ≠ dateOf ref
    · rw [if_pos hd]
      exact ⟨t, ht⟩
    · rw [if_neg hd]
      have hxa : ∃ t', (acc.1.alloc (acc.1.read r)).1 = h0 ++ t' :=
        ⟨t ++ [acc.1.read r], by
          show acc.1 ++ [acc.1.read r] = h0 ++ (t ++ [acc.1.read r])
          rw [ht, List.append_assoc]⟩
      have hr2 : h0.length ≤ (acc.1.alloc (acc.1.read r)).2 := by
        show h0.length ≤ acc.1.length
        rw [ht]
        simp
      show ∃ t', HeapModel.Heap.write _ _ "_pwt" _ = h0 ++ t'
      refine write_ext_of h0 _ _ _ _ ?_ hr2
      refine write_ext_of h0 _ _ _ _ ?_ hr2
      refine write_ext_of h0 _ _ _ _ ?_ hr2
      exact write_ext_of h0 _ _ _ _ hxa hr2

theorem annotate_fold_ext (ref : Int) (h0 : HeapModel.Heap) :
    ∀ (events : List HeapModel.Ref) (acc : HeapModel.Heap × List HeapModel.Ref),
      (∃ t, acc.1 = h0 ++ t) →
      ∃ t, (events.foldl (HeapModel.annotateOne ref) acc).1 = h0 ++ t := by
  intro events
  induction events with
  | nil => exact fun acc h => h
  | cons r rest ih =>
    intro acc hacc
    exact ih _ (annotateOne_ext ref h0 acc r hacc)

/-- One de-conflict step only allocates `dict(last)` copies and writes to
them. -/
theorem deconflictStepH_ext (h0 : HeapModel.Heap)
    (acc : HeapModel.Heap × List HeapModel.Ref × List Planner.Resched × List String)
    (r : HeapModel.Ref) (hacc : ∃ t, acc.1 = h0 ++ t) :
    ∃ t, (HeapModel.deconflictStepH acc r).1 = h0 ++ t := by
  obtain ⟨t, ht⟩ := hacc
  unfold HeapModel.deconflictStepH
  cases hgl : acc.2.1.getLast? with
  | none =>
    simp only [hgl]
    exact ⟨t, ht⟩
  | some lastR =>
    simp only [hgl]
    have hr2last : h0.length ≤ (acc.1.alloc (acc.1.read lastR)).2 := by
      show h0.length ≤ acc.1.length
      rw [ht]
      simp
    have hr2r : h0.length ≤ (acc.1.alloc (acc.1.read r)).2 := by
      show h0.length ≤ acc.1.length
      rw [ht]
      simp
    have hxal : ∃ t', (acc.1.alloc (acc.1.read lastR)).1 = h0 ++ t' :=
      ⟨t ++ [acc.1.read lastR], by
        show acc.1 ++ [acc.1.read lastR] = h0 ++ (t ++ [acc.1.read lastR])
        rw [ht, List.append_assoc]⟩
    have hxar : ∃ t', (acc.1.alloc (acc.1.read r)).1 = h0 ++ t' :=
      ⟨t ++ [acc.1.read r], by
        show acc.1 ++ [acc.1.read r] = h0 ++ (t ++ [acc.1.read r])
        rw [ht, List.append_assoc]⟩
    split_ifs with h1 h2
    · exact ⟨t, ht⟩
    · show ∃ t', HeapModel.Heap.write _ _ "_end" _ = h0 ++ t'
      refine write_ext_of h0 _ _ _ _ ?_ hr2last
      exact write_ext_of h0 _ _ _ _ hxal hr2last
    · show ∃ t', HeapModel.Heap.write _ _ "_end" _ = h0 ++ t'
      refine write_ext_of h0 _ _ _ _ ?_ hr2r
      exact write_ext_of h0 _ _ _ _ hxar hr2r

theorem deconflictH_fold_ext (h0 : HeapModel.Heap) :
    ∀ (l : List HeapModel.Ref)
      (acc : HeapModel.Heap × List HeapModel.Ref × List Planner.Resched × List String),
      (∃ t, acc.1 = h0 ++ t) →
      ∃ t, (l.foldl HeapModel.deconflictStepH acc).1 = h0 ++ t := by
  intro l
  induction l with
  | nil => exact fun acc h => h
  | cons r rest ih =>
    intro acc hacc
    exact ih _ (deconflictStepH_ext h0 acc r hacc)

/-- The heap `plan_day` returns is the annotate/de-conflict heap in both
the template and the regular branch. -/
theorem plan_dayH_fst (h : HeapModel.Heap) (events : List HeapModel.Ref) (ref : Int) :
    (HeapModel.plan_day h events ref).1 =
      (List.foldl HeapModel.deconflictStepH
        ((List.foldl (HeapModel.annotateOne ref) (h, []) events).1, [], [], [])
        (List.insertionSort
          (fun a b =>
            HeapModel.keyB (List.foldl (HeapModel.annotateOne ref) (h, []) events).1
              a b = true)
          (List.foldl (HeapModel.annotateOne ref) (h, []) events).2)).1 := by
  simp only [HeapModel.plan_day]
  split_ifs <;> rfl

/-- C10: `plan_day` leaves its input unchanged — the final heap extends
the initial heap, so the input reference list and every event cell it
points at read identically before and after the call (the planner only
writes to the fresh `dict(e)` copies). -/
theorem c10_plan_day_frame (h : HeapModel.Heap) (events : List HeapModel.Ref)
    (ref : Int) :
    (∃ t, (HeapModel.plan_day h events ref).1 = h ++ t) ∧
    ∀ r : Nat, r < h.length →
      (HeapModel.plan_day h events ref).1.get? r = h.get? r := by
  have hann := annotate_fold_ext ref h events (h, []) ⟨[], by simp⟩
  have hmain : ∃ t, (HeapModel.plan_day h events ref).1 = h ++ t := by
    rw [plan_dayH_fst]
    exact deconflictH_fold_ext h _ _ hann
  refine ⟨hmain, ?_⟩
  intro r hr
  obtain ⟨t, ht⟩ := hmain
  rw [ht, List.get?_append hr]

/-- Witness for C10: a two-cell heap with both events planned. -/
theorem c10_plan_day_frame_witness :
    (0 : Nat) < ([[("title", HeapModel.HV.js (.str "Standup")),
        ("time", HeapModel.HV.js (.str "2025-01-15T09:00"))],
       [("title", HeapModel.HV.js (.str "Walk")),
        ("time", HeapModel.HV.js (.str "2025-01-15T09:15"))]] :
          HeapModel.Heap).length ∧
    (HeapModel.plan_day
        [[("title", HeapModel.HV.js (.str "Standup")),
          ("time", HeapModel.HV.js (.str "2025-01-15T09:00"))],
         [("title", HeapModel.HV.js (.str "Walk")),
          ("time", HeapModel.HV.js (.str "2025-01-15T09:15"))]]
        [0, 1] refJan15).1.get? 0 =
      ([[("title", HeapModel.HV.js (.str "Standup")),
         ("time", HeapModel.HV.js (.str "2025-01-15T09:00"))],
        [("title", HeapModel.HV.js (.str "Walk")),
         ("time", HeapModel.HV.js (.str "2025-01-15T09:15"))]] :
           HeapModel.Heap).get? 0 :=
  ⟨by decide,
   (c10_plan_day_frame
      [[("title", HeapModel.HV.js (.str "Standup")),
        ("time", HeapModel.HV.js (.str "2025-01-15T09:00"))],
       [("title", HeapModel.HV.js (.str "Walk")),
        ("time", HeapModel.HV.js (.str "2025-01-15T09:15"))]]
      [0, 1] refJan15).2 0 (by decide)⟩

/-! ## Claim C2 — conflict resolution, concrete case -/

/-- C2: planning the day with exactly Standup (09:00, high, 30 min) and
Walk (09:15, normal, 60 min) leaves Standup at 09:00–09:30 and reschedules
Walk to 09:30–10:30, with exactly one Reschedule entry, for Walk. -/
theorem c2_conflict_resolution_concrete :
    (Planner.plan_day [standupEvent, walkEvent] refJan15).blocks.map
        (fun b => (fmtHHMM b.start, fmtHHMM b.stop, b.title, b.source)) =
      [("08:00", "09:00", "Open Focus Block", "gap"),
       ("09:00", "09:30", "Standup", "event"),
       ("09:30", "10:30", "Walk", "event"),
       ("10:30", "20:00", "Open Focus Block", "gap")] ∧
    (Planner.plan_day [standupEvent, walkEvent] refJan15).reschedules =
      [⟨some (.str "ev-walk"), "Walk", "2025-01-15T09:15", "2025-01-15T09:30", 60⟩] :=
  ⟨rfl, rfl⟩

/-! ## Claim C3 — empty-day fallback -/

/-- C3: whenever no input event falls on the reference date, `plan_day`
returns exactly the four fixed template blocks (Deep Work 09:00–11:00 high,
Admin / Messages 11:00–12:00 normal, Project Block 13:00–15:00 normal,
Light Tasks 15:30–17:00 low), exactly one nudge noting the fallback, and
empty reschedules and focus-blocks lists. -/
theorem c3_empty_day_fallback (events : List Dict) (ref : Int)
    (h : Planner.filterTodays events ref = []) :
    Planner.plan_day events ref =
      { blocks :=
          [⟨dayBase ref + 32400, dayBase ref + 39600, "Deep Work", "high", "gap", none⟩,
           ⟨dayBase ref + 39600, dayBase ref + 43200, "Admin / Messages", "normal", "gap", none⟩,
           ⟨dayBase ref + 46800, dayBase ref + 54000, "Project Block", "normal", "gap", none⟩,
           ⟨dayBase ref + 55800, dayBase ref + 61200, "Light Tasks", "low", "gap", none⟩],
        nudges := ["No events this day—proposed a focus-first schedule."],
        reschedules := [],
        focus_blocks := [] } := by
  have h1 : Planner.plan_day events ref =
      ⟨Planner.templateBlocks ref, [Planner.fallbackNudge], [], []⟩ := by
    simp only [Planner.plan_day, h]
    rfl
  rw [h1]
  norm_num [Planner.templateBlocks, Planner.fallbackNudge]
  omega

/-- Witness for C3: one event on 2025-01-15 planned against 2025-02-01. -/
theorem c3_empty_day_fallback_witness :
    Planner.filterTodays [cascadeA] refFeb01 = [] ∧
    Planner.plan_day [cascadeA] refFeb01 =
      { blocks :=
          [⟨dayBase refFeb01 + 32400, dayBase refFeb01 + 39600, "Deep Work", "high", "gap", none⟩,
           ⟨dayBase refFeb01 + 39600, dayBase refFeb01 + 43200, "Admin / Messages", "normal", "gap", none⟩,
           ⟨dayBase refFeb01 + 46800, dayBase refFeb01 + 54000, "Project Block", "normal", "gap", none⟩,
           ⟨dayBase refFeb01 + 55800, dayBase refFeb01 + 61200, "Light Tasks", "low", "gap", none⟩],
        nudges := ["No events this day—proposed a focus-first schedule."],
        reschedules := [],
        focus_blocks := [] } :=
  ⟨rfl, c3_empty_day_fallback [cascadeA] refFeb01 rfl⟩

end Alden
